import Mathlib

/-!
Shallow embedding of the inventory-ledger / costed-recipe core of the
menu_engineering_backend service (FastAPI + raw SQL handlers under
`app/api/v1/`).  Tables are association lists of records, ids are `Nat`,
SQL `Numeric` quantities are `ℚ`.  Each HTTP handler becomes a function
`... → St → Except Err St`: the handlers call `db.commit()` only as their
last statement, so raising an exception mid-handler rolls the whole
transaction back — which the `Except` embedding models by returning only
the error and leaving the caller with the pre-state.
-/

namespace MenuEng

/-- Error taxonomy of the modeled handlers (HTTP status + detail collapsed
to the business meaning). -/
inductive Err where
  | notFound : Err
  | menuNotActive : Err
  | insufficientStock (ingredient_id : Nat) : Err
  | invalidStatus : Err
  | negativeStock : Err
  | limitReached : Err
  | conversionNotFound : Err
deriving DecidableEq, Repr

structure Outlet where
  outlet_id : Nat
  organization_id : Nat
deriving DecidableEq, Repr

structure Ingredient where
  ingredient_id : Nat
  organization_id : Nat
deriving DecidableEq, Repr

structure Organization where
  organization_id : Nat
  max_menu_items : Nat
deriving DecidableEq, Repr

structure Menu where
  menu_id : Nat
  organization_id : Nat
  price : ℚ
  is_active : Bool
deriving DecidableEq, Repr

structure Recipe where
  recipe_id : Nat
  menu_id : Nat
  version : Nat
  is_active : Bool
deriving DecidableEq, Repr

structure RecipeItem where
  recipe_id : Nat
  ingredient_id : Nat
  qty : ℚ
  unit_id : Nat
deriving DecidableEq, Repr

/-- Row of `inventory_stock`: one row per (outlet, ingredient). -/
structure StockLevel where
  outlet_id : Nat
  ingredient_id : Nat
  organization_id : Nat
  qty_on_hand : ℚ
  min_qty : ℚ
  unit_id : Nat
  last_cost : Option ℚ
deriving DecidableEq, Repr

inductive SourceType where
  | purchase | sale | adjustment | transferIn | transferOut
deriving DecidableEq, Repr

/-- Row of `inventory_ledger` (append-only). -/
structure LedgerEntry where
  organization_id : Nat
  outlet_id : Nat
  ingredient_id : Nat
  change_qty : ℚ
  source_type : SourceType
  source_id : Option Nat
  unit_id : Nat
  unit_cost : Option ℚ
  total_cost : Option ℚ
deriving DecidableEq, Repr

/-- One element of a SalesOrderItem's frozen `ingredient_usage_json` list. -/
structure UsageLine where
  ingredient_id : Nat
  qty : ℚ
  unit_id : Nat
  unit_cost : ℚ
  total_cost : ℚ
deriving DecidableEq, Repr

structure SalesOrder where
  order_id : Nat
  organization_id : Nat
  outlet_id : Nat
  total_amount : ℚ
deriving DecidableEq, Repr

structure SalesOrderItem where
  order_id : Nat
  menu_id : Nat
  qty : Int
  price_at_that_time : ℚ
  hpp_at_that_time : ℚ
  total_item_amount : ℚ
  ingredient_usage : List UsageLine
deriving DecidableEq, Repr

inductive POStatus where
  | draft | ordered | received | cancelled
deriving DecidableEq, Repr

structure PurchaseOrder where
  po_id : Nat
  organization_id : Nat
  outlet_id : Nat
  status : POStatus
deriving DecidableEq, Repr

structure PurchaseOrderItem where
  item_id : Nat
  po_id : Nat
  ingredient_id : Nat
  qty_ordered : ℚ
  unit_id : Nat
  unit_cost : ℚ
  qty_received : Option ℚ
deriving DecidableEq, Repr

inductive TransferStatus where
  | draft | shipped | received | cancelled
deriving DecidableEq, Repr

structure StockTransfer where
  transfer_id : Nat
  organization_id : Nat
  status : TransferStatus
  from_outlet_id : Nat
  to_outlet_id : Nat
  stock_request_id : Option Nat
deriving DecidableEq, Repr

structure StockTransferItem where
  transfer_id : Nat
  ingredient_id : Nat
  qty : ℚ
  unit_id : Nat
  unit_cost : Option ℚ
  total_cost : Option ℚ
deriving DecidableEq, Repr

inductive RequestStatus where
  | pending | approved | rejected | fulfilled | cancelled
deriving DecidableEq, Repr

structure StockRequest where
  request_id : Nat
  organization_id : Nat
  status : RequestStatus
  to_outlet_id : Nat
deriving DecidableEq, Repr

structure StockRequestItem where
  item_id : Nat
  request_id : Nat
  ingredient_id : Nat
  requested_qty : ℚ
  approved_qty : Option ℚ
deriving DecidableEq, Repr

/-- Row of `unit_conversions`; `ingredient_id = none` is a global
(ingredient-agnostic) multiplier. -/
structure UnitConversion where
  ingredient_id : Option Nat
  from_unit_id : Nat
  to_unit_id : Nat
  multiplier : ℚ
deriving DecidableEq, Repr

/-- The persistent state: every table the modeled handlers read or write,
plus a fresh-id counter standing for primary-key generation. -/
structure St where
  organizations : List Organization
  outlets : List Outlet
  ingredients : List Ingredient
  menus : List Menu
  recipes : List Recipe
  recipe_items : List RecipeItem
  inventory_stock : List StockLevel
  inventory_ledger : List LedgerEntry
  sales_orders : List SalesOrder
  sales_order_items : List SalesOrderItem
  purchase_orders : List PurchaseOrder
  purchase_order_items : List PurchaseOrderItem
  stock_transfers : List StockTransfer
  stock_transfer_items : List StockTransferItem
  stock_requests : List StockRequest
  stock_request_items : List StockRequestItem
  unit_conversions : List UnitConversion
  nextId : Nat
deriving DecidableEq, Repr

/-! ## Generic list-update primitive and table helpers -/

/-- Replaces the first element satisfying `p` by its image under `f`;
models `UPDATE ... WHERE id = :found_id` where the id was obtained by a
preceding `SELECT` returning the first matching row. -/
def updateFirst (p : α → Bool) (f : α → α) : List α → List α
  | [] => []
  | x :: xs => if p x then f x :: xs else x :: updateFirst p f xs

def findOutlet (s : St) (org oid : Nat) : Option Outlet :=
  s.outlets.find? (fun o => o.outlet_id == oid && o.organization_id == org)

def findIngredient (s : St) (org iid : Nat) : Option Ingredient :=
  s.ingredients.find? (fun i => i.ingredient_id == iid && i.organization_id == org)

def findMenu (s : St) (org mid : Nat) : Option Menu :=
  s.menus.find? (fun m => m.menu_id == mid && m.organization_id == org)

def findPO (s : St) (org pid : Nat) : Option PurchaseOrder :=
  s.purchase_orders.find? (fun p => p.po_id == pid && p.organization_id == org)

def findTransfer (s : St) (org tid : Nat) : Option StockTransfer :=
  s.stock_transfers.find? (fun t => t.transfer_id == tid && t.organization_id == org)

def findRequest (s : St) (org rid : Nat) : Option StockRequest :=
  s.stock_requests.find? (fun r => r.request_id == rid && r.organization_id == org)

/-- Business key of `inventory_stock` rows. -/
def keyMatch (o i : Nat) (s : StockLevel) : Bool :=
  s.outlet_id == o && s.ingredient_id == i

/-- SELECT on `inventory_stock` by its business key (the handlers filter
by outlet and ingredient only, not by organization). -/
def findStock (stocks : List StockLevel) (o i : Nat) : Option StockLevel :=
  stocks.find? (keyMatch o i)

/-- Quantity on hand for a key, `0` when no row exists. -/
def stockQty (stocks : List StockLevel) (o i : Nat) : ℚ :=
  match findStock stocks o i with
  | some s => s.qty_on_hand
  | none => 0

/-- Last cost stored for a key, `none` when no row exists or the column
is NULL. -/
def lastCostAt (stocks : List StockLevel) (o i : Nat) : Option ℚ :=
  match findStock stocks o i with
  | some s => s.last_cost
  | none => none

/-- Sum of `change_qty` over all ledger entries for one key. -/
def ledgerSum (ledger : List LedgerEntry) (o i : Nat) : ℚ :=
  ((ledger.filter (fun e => e.outlet_id == o && e.ingredient_id == i)).map
    (fun e => e.change_qty)).sum

/-- UPDATE of the single fetched stock row setting `qty_on_hand` to an
absolute value. -/
def setQtyFirst (stocks : List StockLevel) (o i : Nat) (q : ℚ) : List StockLevel :=
  updateFirst (keyMatch o i) (fun s => { s with qty_on_hand := q }) stocks

/-- UPDATE of the single fetched stock row setting `qty_on_hand` and
`last_cost` together (purchase receive, transfer receive). -/
def setQtyCostFirst (stocks : List StockLevel) (o i : Nat) (q : ℚ) (c : Option ℚ) :
    List StockLevel :=
  updateFirst (keyMatch o i) (fun s => { s with qty_on_hand := q, last_cost := c })
    stocks

/-- Relative UPDATE `SET qty_on_hand = qty_on_hand + d WHERE outlet_id
AND ingredient_id` (the sales handler updates by key, not by id). -/
def addStockQty (stocks : List StockLevel) (o i : Nat) (d : ℚ) : List StockLevel :=
  stocks.map (fun s =>
    if keyMatch o i s then { s with qty_on_hand := s.qty_on_hand + d } else s)

/-- Python truthiness on a nullable numeric: both SQL NULL and `0` are
falsy (`float(x) if x else None`). -/
def optTruthy (v : Option ℚ) : Option ℚ :=
  match v with
  | some c => if c = 0 then none else some c
  | none => none

/-! ## Unit Conversion Resolver (`app/api/v1/units.py`, `convert_unit`) -/

/-- Scope filter of the conversion query: with an ingredient given, both
ingredient-specific and global rows qualify; without one, only global
rows. -/
def convScopeOk (ing : Option Nat) (c : UnitConversion) : Bool :=
  match ing with
  | some i => c.ingredient_id == some i || c.ingredient_id == none
  | none => c.ingredient_id == none

/-- Multiplier lookup for a (from, to) pair.  With an ingredient the SQL
sorts `ingredient_id DESC NULLS LAST LIMIT 1`, i.e. prefers the
ingredient-specific row over a global one. -/
def lookupConv (convs : List UnitConversion) (f t : Nat) (ing : Option Nat) : Option ℚ :=
  let cands := convs.filter
    (fun c => c.from_unit_id == f && c.to_unit_id == t && convScopeOk ing c)
  match ing with
  | some _ =>
    match cands.find? (fun c => c.ingredient_id.isSome) with
    | some c => some c.multiplier
    | none => cands.head?.map (fun c => c.multiplier)
  | none => cands.head?.map (fun c => c.multiplier)

/-- `POST /units/convert`.  The second, "reverse" query of the handler
swaps the column references in its SQL text, but the dictionary it binds
swaps the two unit ids as well, so the rows it matches are again exactly
those with `from_unit_id = from_unit_id` and `to_unit_id = to_unit_id`
of the original request; only the multiplier is inverted. -/
def convertUnit (convs : List UnitConversion) (from_unit_id to_unit_id : Nat)
    (quantity : ℚ) (ingredient_id : Option Nat) : Except Err ℚ :=
  match lookupConv convs from_unit_id to_unit_id ingredient_id with
  | some m => .ok (quantity * m)
  | none =>
    match lookupConv convs from_unit_id to_unit_id ingredient_id with
    | some m => .ok (quantity * (1 / m))
    | none => .error .conversionNotFound

/-- Reading of the spec's words for the same contract, used to compare
against `convertUnit`: direct row first, then the genuinely inverse pair
with `1 / multiplier`, else `ConversionNotFound`. -/
def convertUnitSpec (convs : List UnitConversion) (from_unit_id to_unit_id : Nat)
    (quantity : ℚ) (ingredient_id : Option Nat) : Except Err ℚ :=
  match lookupConv convs from_unit_id to_unit_id ingredient_id with
  | some m => .ok (quantity * m)
  | none =>
    match lookupConv convs to_unit_id from_unit_id ingredient_id with
    | some m => .ok (quantity * (1 / m))
    | none => .error .conversionNotFound

/-! ## Manual Adjustment (`app/api/v1/inventory.py`,
`create_inventory_adjustment`) -/

structure AdjustmentReq where
  ingredient_id : Nat
  outlet_id : Nat
  adjustment_qty : ℚ
  unit_id : Nat
deriving DecidableEq, Repr

def createInventoryAdjustment (org : Nat) (req : AdjustmentReq) (s : St) :
    Except Err St :=
  match findOutlet s org req.outlet_id with
  | none => .error .notFound
  | some _ =>
  match findIngredient s org req.ingredient_id with
  | none => .error .notFound
  | some _ =>
    let entry : LedgerEntry :=
      { organization_id := org, outlet_id := req.outlet_id,
        ingredient_id := req.ingredient_id, change_qty := req.adjustment_qty,
        source_type := .adjustment, source_id := none, unit_id := req.unit_id,
        unit_cost := none, total_cost := none }
    match findStock s.inventory_stock req.outlet_id req.ingredient_id with
    | some stock =>
      let newQty := stock.qty_on_hand + req.adjustment_qty
      if newQty < 0 then .error .negativeStock
      else .ok { s with
        inventory_stock :=
          setQtyFirst s.inventory_stock req.outlet_id req.ingredient_id newQty,
        inventory_ledger := s.inventory_ledger ++ [entry] }
    | none =>
      if req.adjustment_qty < 0 then .error .negativeStock
      else .ok { s with
        inventory_stock := s.inventory_stock ++
          [{ outlet_id := req.outlet_id, ingredient_id := req.ingredient_id,
             organization_id := org, qty_on_hand := req.adjustment_qty,
             min_qty := 0, unit_id := req.unit_id, last_cost := none }],
        inventory_ledger := s.inventory_ledger ++ [entry] }

/-! ## Sales Order (`app/api/v1/sales.py`, `create_sales_order`) -/

structure SalesLineReq where
  menu_id : Nat
  qty : Int
deriving DecidableEq, Repr

structure SalesOrderReq where
  outlet_id : Nat
  items : List SalesLineReq
deriving DecidableEq, Repr

/-- Active recipe of a menu: `WHERE menu_id AND is_active ORDER BY
version DESC LIMIT 1`. -/
def activeRecipe (recipes : List Recipe) (mid : Nat) : Option Recipe :=
  (recipes.filter (fun r => r.menu_id == mid && r.is_active)).foldl
    (fun best r =>
      match best with
      | none => some r
      | some b => if b.version < r.version then some r else some b)
    none

def recipeItemsOf (items : List RecipeItem) (rid : Nat) : List RecipeItem :=
  items.filter (fun ri => ri.recipe_id == rid)

/-- Python truthiness of the joined `last_cost` column: `if ri.last_cost:`
is false both for SQL NULL and for a stored `0`. -/
def truthyCost (lc : Option ℚ) : Bool :=
  match lc with
  | some c => decide (c ≠ 0)
  | none => false

/-- Unit cost recorded in a usage snapshot: the row's `last_cost` when
truthy, else `0`. -/
def usageUnitCost (lc : Option ℚ) : ℚ :=
  if truthyCost lc then lc.getD 0 else 0

/-- Line cost recorded in a usage snapshot (`usage_qty * last_cost` when
truthy, else `0`). -/
def usageItemCost (lc : Option ℚ) (usage_qty : ℚ) : ℚ :=
  if truthyCost lc then usage_qty * lc.getD 0 else 0

/-- First phase of the per-line recipe loop: builds the frozen
`ingredient_usage` list and accumulates `total_hpp`, checking stock
availability per recipe item against the (unmodified) current stock.  A
missing stock row or `qty_on_hand < usage_qty` aborts with
`InsufficientStock` naming that ingredient. -/
def buildUsage (stocks : List StockLevel) (outlet : Nat) (lineQty : Int) :
    List RecipeItem → Except Err (List UsageLine × ℚ)
  | [] => .ok ([], 0)
  | ri :: rest =>
    match findStock stocks outlet ri.ingredient_id with
    | none => .error (.insufficientStock ri.ingredient_id)
    | some stockRow =>
      if stockRow.qty_on_hand < ri.qty * (lineQty : ℚ) then
        .error (.insufficientStock ri.ingredient_id)
      else
        match buildUsage stocks outlet lineQty rest with
        | .error e => .error e
        | .ok (restUsage, restHpp) =>
          .ok ({ ingredient_id := ri.ingredient_id, qty := ri.qty * (lineQty : ℚ),
                 unit_id := ri.unit_id,
                 unit_cost := usageUnitCost stockRow.last_cost,
                 total_cost :=
                   usageItemCost stockRow.last_cost (ri.qty * (lineQty : ℚ)) }
                :: restUsage,
               usageItemCost stockRow.last_cost (ri.qty * (lineQty : ℚ)) + restHpp)

/-- An order line after the read-only first loop: everything the second
loop inserts. -/
structure PreparedItem where
  menu_id : Nat
  qty : Int
  price : ℚ
  hpp : ℚ
  total : ℚ
  usage : List UsageLine
deriving DecidableEq, Repr

/-- First loop of `create_sales_order`: resolves each menu, costs it
against the active recipe, and checks stock; performs no writes. -/
def prepareItems (s : St) (org outlet : Nat) :
    List SalesLineReq → Except Err (List PreparedItem)
  | [] => .ok []
  | line :: rest =>
    match findMenu s org line.menu_id with
    | none => .error .notFound
    | some menu =>
      if !menu.is_active then .error .menuNotActive
      else
        let usageRes :=
          match activeRecipe s.recipes line.menu_id with
          | some r => buildUsage s.inventory_stock outlet line.qty
              (recipeItemsOf s.recipe_items r.recipe_id)
          | none => Except.ok ([], 0)
        match usageRes with
        | .error e => .error e
        | .ok (usage, hppTotal) =>
          let itemTotal := menu.price * (line.qty : ℚ)
          let hpp := if 0 < line.qty then hppTotal / (line.qty : ℚ) else 0
          match prepareItems s org outlet rest with
          | .error e => .error e
          | .ok restItems =>
            .ok ({ menu_id := line.menu_id, qty := line.qty, price := menu.price,
                   hpp := hpp, total := itemTotal, usage := usage } :: restItems)

/-- Stock-and-ledger effect of one usage line of the second loop. -/
def applyUsage (org outlet orderId : Nat) (u : UsageLine)
    (stocks : List StockLevel) (ledger : List LedgerEntry) :
    List StockLevel × List LedgerEntry :=
  (addStockQty stocks outlet u.ingredient_id (-u.qty),
   ledger ++ [{ organization_id := org, outlet_id := outlet,
                ingredient_id := u.ingredient_id, change_qty := -u.qty,
                source_type := .sale, source_id := some orderId,
                unit_id := u.unit_id, unit_cost := some u.unit_cost,
                total_cost := some u.total_cost }])

def applyUsages (org outlet orderId : Nat) :
    List UsageLine → List StockLevel × List LedgerEntry →
    List StockLevel × List LedgerEntry
  | [], acc => acc
  | u :: rest, (stocks, ledger) =>
    applyUsages org outlet orderId rest (applyUsage org outlet orderId u stocks ledger)

/-- One iteration of the second loop of `create_sales_order`: inserts the
order item row, then for each of its usage lines decrements stock and
appends a SALE ledger entry. -/
def applyOneItem (org outlet orderId : Nat) (it : PreparedItem) (s : St) : St :=
  let row : SalesOrderItem :=
    { order_id := orderId, menu_id := it.menu_id, qty := it.qty,
      price_at_that_time := it.price, hpp_at_that_time := it.hpp,
      total_item_amount := it.total, ingredient_usage := it.usage }
  let s1 := { s with sales_order_items := s.sales_order_items ++ [row] }
  let pair :=
    applyUsages org outlet orderId it.usage (s1.inventory_stock, s1.inventory_ledger)
  { s1 with inventory_stock := pair.1, inventory_ledger := pair.2 }

/-- Second loop of `create_sales_order`. -/
def applyItems (org outlet orderId : Nat) : List PreparedItem → St → St
  | [], s => s
  | it :: rest, s =>
    applyItems org outlet orderId rest (applyOneItem org outlet orderId it s)

def createSalesOrder (org : Nat) (req : SalesOrderReq) (s : St) : Except Err St :=
  match findOutlet s org req.outlet_id with
  | none => .error .notFound
  | some _ =>
    match prepareItems s org req.outlet_id req.items with
    | .error e => .error e
    | .ok items =>
      let total := (items.map (fun it => it.total)).sum
      let orderId := s.nextId
      let hdr : SalesOrder :=
        { order_id := orderId, organization_id := org,
          outlet_id := req.outlet_id, total_amount := total }
      let s1 := { s with nextId := s.nextId + 1,
                         sales_orders := s.sales_orders ++ [hdr] }
      .ok (applyItems org req.outlet_id orderId items s1)

/-! ## Purchase Order receive (`app/api/v1/purchase_orders.py`,
`receive_purchase_order`) -/

structure ReceivePOLine where
  item_id : Nat
  qty_received : ℚ
deriving DecidableEq, Repr

/-- Loop body of `receive_purchase_order`: a payload line whose item does
not belong to the PO is skipped (`continue`); a matched line updates the
item's `qty_received`, upserts the stock row (adding the received
quantity and overwriting `last_cost` with the item's `unit_cost`), and
appends a PURCHASE ledger entry. -/
def receivePOItems (org poid outlet : Nat) : List ReceivePOLine → St → St
  | [], s => s
  | ld :: rest, s =>
    match s.purchase_order_items.find?
        (fun it => it.item_id == ld.item_id && it.po_id == poid) with
    | none => receivePOItems org poid outlet rest s
    | some item =>
      let items1 :=
        updateFirst (fun it => it.item_id == ld.item_id)
          (fun it => { it with qty_received := some ld.qty_received })
          s.purchase_order_items
      let s1 := { s with purchase_order_items := items1 }
      let newRow : StockLevel :=
        { outlet_id := outlet, ingredient_id := item.ingredient_id,
          organization_id := org, qty_on_hand := ld.qty_received,
          min_qty := 0, unit_id := item.unit_id,
          last_cost := some item.unit_cost }
      let stocks1 :=
        match findStock s1.inventory_stock outlet item.ingredient_id with
        | some stock =>
          setQtyCostFirst s1.inventory_stock outlet item.ingredient_id
            (stock.qty_on_hand + ld.qty_received) (some item.unit_cost)
        | none => s1.inventory_stock ++ [newRow]
      let s2 := { s1 with inventory_stock := stocks1 }
      let entry : LedgerEntry :=
        { organization_id := org, outlet_id := outlet,
          ingredient_id := item.ingredient_id, change_qty := ld.qty_received,
          source_type := .purchase, source_id := some poid,
          unit_id := item.unit_id, unit_cost := some item.unit_cost,
          total_cost := some (ld.qty_received * item.unit_cost) }
      receivePOItems org poid outlet rest
        { s2 with inventory_ledger := s2.inventory_ledger ++ [entry] }

def setPOStatus (orders : List PurchaseOrder) (pid : Nat) (st : POStatus) :
    List PurchaseOrder :=
  updateFirst (fun p => p.po_id == pid) (fun p => { p with status := st }) orders

def receivePurchaseOrder (org poid : Nat) (req : List ReceivePOLine) (s : St) :
    Except Err St :=
  match findPO s org poid with
  | none => .error .notFound
  | some po =>
    if po.status = .ordered ∨ po.status = .draft then
      let s1 := receivePOItems org poid po.outlet_id req s
      .ok { s1 with purchase_orders := setPOStatus s1.purchase_orders poid .received }
    else .error .invalidStatus

/-! ## Stock Transfer ship / receive (`app/api/v1/stock_transfers.py`) -/

def transferItemsOf (items : List StockTransferItem) (tid : Nat) :
    List StockTransferItem :=
  items.filter (fun it => it.transfer_id == tid)

def setTransferStatus (transfers : List StockTransfer) (tid : Nat)
    (st : TransferStatus) : List StockTransfer :=
  updateFirst (fun t => t.transfer_id == tid) (fun t => { t with status := st })
    transfers

/-- Loop of `ship_stock_transfer`: per item, re-reads the source stock
row (so a second item on the same ingredient sees the already-deducted
quantity), fails with `InsufficientStock` on a missing or short row,
otherwise deducts and appends a TRANSFER_OUT entry. -/
def shipItems (org fromOutlet tid : Nat) :
    List StockTransferItem → St → Except Err St
  | [], s => .ok s
  | item :: rest, s =>
    match findStock s.inventory_stock fromOutlet item.ingredient_id with
    | none => .error (.insufficientStock item.ingredient_id)
    | some stock =>
      if stock.qty_on_hand < item.qty then
        .error (.insufficientStock item.ingredient_id)
      else
        let entry : LedgerEntry :=
          { organization_id := org, outlet_id := fromOutlet,
            ingredient_id := item.ingredient_id, change_qty := -item.qty,
            source_type := .transferOut, source_id := some tid,
            unit_id := item.unit_id, unit_cost := optTruthy item.unit_cost,
            total_cost := optTruthy item.total_cost }
        let stocks1 :=
          setQtyFirst s.inventory_stock fromOutlet item.ingredient_id
            (stock.qty_on_hand - item.qty)
        shipItems org fromOutlet tid rest
          { s with inventory_stock := stocks1,
                   inventory_ledger := s.inventory_ledger ++ [entry] }

def shipStockTransfer (org tid : Nat) (s : St) : Except Err St :=
  match findTransfer s org tid with
  | none => .error .notFound
  | some tr =>
    if tr.status = .draft then
      match shipItems org tr.from_outlet_id tid
          (transferItemsOf s.stock_transfer_items tid) s with
      | .error e => .error e
      | .ok s1 =>
        let transfers1 := setTransferStatus s1.stock_transfers tid .shipped
        .ok { s1 with stock_transfers := transfers1 }
    else .error .invalidStatus

/-- Loop of `receive_stock_transfer`: per item, upserts the destination
stock row (adding `qty` and overwriting `last_cost` with the item's
truthy unit cost) and appends a TRANSFER_IN entry. -/
def receiveTransferItems (org toOutlet tid : Nat) :
    List StockTransferItem → St → St
  | [], s => s
  | item :: rest, s =>
    let newRow : StockLevel :=
      { outlet_id := toOutlet, ingredient_id := item.ingredient_id,
        organization_id := org, qty_on_hand := item.qty, min_qty := 0,
        unit_id := item.unit_id, last_cost := optTruthy item.unit_cost }
    let stocks1 :=
      match findStock s.inventory_stock toOutlet item.ingredient_id with
      | some stock =>
        setQtyCostFirst s.inventory_stock toOutlet item.ingredient_id
          (stock.qty_on_hand + item.qty) (optTruthy item.unit_cost)
      | none => s.inventory_stock ++ [newRow]
    let s1 := { s with inventory_stock := stocks1 }
    let entry : LedgerEntry :=
      { organization_id := org, outlet_id := toOutlet,
        ingredient_id := item.ingredient_id, change_qty := item.qty,
        source_type := .transferIn, source_id := some tid,
        unit_id := item.unit_id, unit_cost := optTruthy item.unit_cost,
        total_cost := optTruthy item.total_cost }
    receiveTransferItems org toOutlet tid rest
      { s1 with inventory_ledger := s1.inventory_ledger ++ [entry] }

def receiveStockTransfer (org tid : Nat) (s : St) : Except Err St :=
  match findTransfer s org tid with
  | none => .error .notFound
  | some tr =>
    if tr.status = .shipped then
      let s1 := receiveTransferItems org tr.to_outlet_id tid
        (transferItemsOf s.stock_transfer_items tid) s
      let transfers1 := setTransferStatus s1.stock_transfers tid .received
      let s2 := { s1 with stock_transfers := transfers1 }
      match tr.stock_request_id with
      | some rid =>
        let requests1 :=
          updateFirst (fun r => r.request_id == rid)
            (fun r => { r with status := .fulfilled }) s2.stock_requests
        .ok { s2 with stock_requests := requests1 }
      | none => .ok s2
    else .error .invalidStatus

/-! ## Stock Request approve (`app/api/v1/stock_requests.py`,
`approve_stock_request`) -/

structure ApproveLine where
  item_id : Nat
  approved_qty : ℚ
deriving DecidableEq, Repr

/-- UPDATE of the single stock-request item row fetched by id, setting
its `approved_qty`. -/
def setApproved (iid : Nat) (q : ℚ) (items : List StockRequestItem) :
    List StockRequestItem :=
  updateFirst (fun it => it.item_id == iid)
    (fun it => { it with approved_qty := some q }) items

/-- Loop of `approve_stock_request`: a payload line whose item does not
belong to the request is skipped; a matched line's stored `approved_qty`
becomes `min(caller value, min(requested_qty, central availability))`,
availability being `0` when the central outlet has no stock row. -/
def approveItems (toOutlet rid : Nat) : List ApproveLine → St → St
  | [], s => s
  | ld :: rest, s =>
    match s.stock_request_items.find?
        (fun it => it.item_id == ld.item_id && it.request_id == rid) with
    | none => approveItems toOutlet rid rest s
    | some item =>
      let available := stockQty s.inventory_stock toOutlet item.ingredient_id
      let maxApproved := min item.requested_qty available
      let approved := min ld.approved_qty maxApproved
      let items1 := setApproved ld.item_id approved s.stock_request_items
      approveItems toOutlet rid rest { s with stock_request_items := items1 }

def approveStockRequest (org rid : Nat) (req : List ApproveLine) (s : St) :
    Except Err St :=
  match findRequest s org rid with
  | none => .error .notFound
  | some r =>
    if r.status = .pending then
      let s1 := approveItems r.to_outlet_id rid req s
      let requests1 :=
        updateFirst (fun q => q.request_id == rid)
          (fun q => { q with status := .approved }) s1.stock_requests
      .ok { s1 with stock_requests := requests1 }
    else .error .invalidStatus

/-! ## Menu / Recipe creation (`app/api/v1/menus.py`) -/

structure RecipeItemReq where
  ingredient_id : Nat
  qty : ℚ
  unit_id : Nat
deriving DecidableEq, Repr

/-- Recipe payload of `MenuCreate`; `create_menu` stores the
caller-supplied version and always inserts the recipe as active. -/
structure MenuRecipePayload where
  version : Nat
  items : List RecipeItemReq
deriving DecidableEq, Repr

structure MenuCreateReq where
  price : ℚ
  recipe : Option MenuRecipePayload
deriving DecidableEq, Repr

def createMenu (org : Nat) (req : MenuCreateReq) (s : St) : Except Err St :=
  match s.organizations.find? (fun o => o.organization_id == org) with
  | none => .error .notFound
  | some orgRow =>
    if orgRow.max_menu_items ≤
        (s.menus.filter (fun m => m.organization_id == org)).length then
      .error .limitReached
    else
      let mid := s.nextId
      let s1 := { s with nextId := s.nextId + 1,
                         menus := s.menus ++
                           [{ menu_id := mid, organization_id := org,
                              price := req.price, is_active := true }] }
      .ok (match req.recipe with
        | none => s1
        | some rp =>
          let rid := s1.nextId
          { s1 with nextId := s1.nextId + 1,
                    recipes := s1.recipes ++
                      [{ recipe_id := rid, menu_id := mid,
                         version := rp.version, is_active := true }],
                    recipe_items := s1.recipe_items ++
                      rp.items.map (fun it =>
                        { recipe_id := rid, ingredient_id := it.ingredient_id,
                          qty := it.qty, unit_id := it.unit_id }) })

structure RecipeCreateReq where
  is_active : Bool
  items : List RecipeItemReq
deriving DecidableEq, Repr

/-- `create_recipe_for_menu`: version is `max(version)+1` for the menu;
when the new recipe is active, all existing recipes of that menu are
deactivated in the same transaction. -/
def createRecipeForMenu (org mid : Nat) (req : RecipeCreateReq) (s : St) :
    Except Err St :=
  match findMenu s org mid with
  | none => .error .notFound
  | some _ =>
    let maxVersion :=
      ((s.recipes.filter (fun r => r.menu_id == mid)).map
        (fun r => r.version)).foldr max 0
    let newVersion := maxVersion + 1
    let recipes1 :=
      if req.is_active then
        s.recipes.map (fun r =>
          if r.menu_id == mid then { r with is_active := false } else r)
      else s.recipes
    let rid := s.nextId
    .ok { s with nextId := s.nextId + 1,
                 recipes := recipes1 ++
                   [{ recipe_id := rid, menu_id := mid, version := newVersion,
                      is_active := req.is_active }],
                 recipe_items := s.recipe_items ++
                   req.items.map (fun it =>
                     { recipe_id := rid, ingredient_id := it.ingredient_id,
                       qty := it.qty, unit_id := it.unit_id }) }

/-! ## Operation dispatch -/

/-- The five stock-affecting operations of the ledger invariant. -/
inductive Op where
  | sale (org : Nat) (req : SalesOrderReq)
  | adjust (org : Nat) (req : AdjustmentReq)
  | receivePO (org poid : Nat) (req : List ReceivePOLine)
  | shipTransfer (org tid : Nat)
  | receiveTransfer (org tid : Nat)
deriving DecidableEq, Repr

def step (op : Op) (s : St) : Except Err St :=
  match op with
  | .sale org req => createSalesOrder org req s
  | .adjust org req => createInventoryAdjustment org req s
  | .receivePO org poid req => receivePurchaseOrder org poid req s
  | .shipTransfer org tid => shipStockTransfer org tid s
  | .receiveTransfer org tid => receiveStockTransfer org tid s

/-- Every modeled state-mutating operation of the system. -/
inductive FullOp where
  | stock (op : Op)
  | approveRequest (org rid : Nat) (req : List ApproveLine)
  | newMenu (org : Nat) (req : MenuCreateReq)
  | newRecipe (org mid : Nat) (req : RecipeCreateReq)
deriving DecidableEq, Repr

def stepFull (op : FullOp) (s : St) : Except Err St :=
  match op with
  | .stock op => step op s
  | .approveRequest org rid req => approveStockRequest org rid req s
  | .newMenu org req => createMenu org req s
  | .newRecipe org mid req => createRecipeForMenu org mid req s

/-! ## Lemmas: the `updateFirst` primitive -/

theorem updateFirst_eq_of_find?_none {α : Type} {p : α → Bool} {f : α → α}
    {l : List α} (h : l.find? p = none) : updateFirst p f l = l := by
  induction l with
  | nil => rfl
  | cons x xs ih =>
    by_cases hp : p x
    · simp [List.find?_cons_of_pos _ hp] at h
    · rw [List.find?_cons_of_neg _ hp] at h
      simp [updateFirst, hp, ih h]

theorem find?_updateFirst_self {α : Type} {p : α → Bool} {f : α → α}
    {l : List α} {x : α} (h : l.find? p = some x) (hf : p (f x) = true) :
    (updateFirst p f l).find? p = some (f x) := by
  induction l with
  | nil => simp at h
  | cons y ys ih =>
    by_cases hp : p y
    · rw [List.find?_cons_of_pos _ hp] at h
      cases h
      simp only [updateFirst, if_pos hp]
      exact List.find?_cons_of_pos _ hf
    · rw [List.find?_cons_of_neg _ hp] at h
      simp only [updateFirst, if_neg hp]
      rw [List.find?_cons_of_neg _ hp]
      exact ih h

theorem find?_updateFirst_of_disjoint {α : Type} {p q : α → Bool} {f : α → α}
    {l : List α} (h : ∀ x, p x = true → (q x = false ∧ q (f x) = false)) :
    (updateFirst p f l).find? q = l.find? q := by
  induction l with
  | nil => rfl
  | cons y ys ih =>
    by_cases hp : p y
    · obtain ⟨h1, h2⟩ := h y hp
      simp only [updateFirst, if_pos hp]
      rw [List.find?_cons_of_neg _ (by simp [h2]),
          List.find?_cons_of_neg _ (by simp [h1])]
    · simp only [updateFirst, if_neg hp]
      by_cases hq : q y
      · rw [List.find?_cons_of_pos _ hq, List.find?_cons_of_pos _ hq]
      · rw [List.find?_cons_of_neg _ hq, List.find?_cons_of_neg _ hq]
        exact ih

theorem mem_updateFirst {α : Type} {p : α → Bool} {f : α → α} {l : List α}
    {y : α} (h : y ∈ updateFirst p f l) :
    y ∈ l ∨ ∃ x, x ∈ l ∧ p x = true ∧ y = f x := by
  induction l with
  | nil => simp [updateFirst] at h
  | cons z zs ih =>
    by_cases hp : p z
    · simp only [updateFirst, if_pos hp, List.mem_cons] at h
      rcases h with h | h
      · exact Or.inr ⟨z, List.mem_cons_self z zs, hp, h⟩
      · exact Or.inl (List.mem_cons_of_mem _ h)
    · simp only [updateFirst, if_neg hp, List.mem_cons] at h
      rcases h with h | h
      · exact Or.inl (by simp [h])
      · rcases ih h with h2 | ⟨x, hx, hpx, hy⟩
        · exact Or.inl (List.mem_cons_of_mem _ h2)
        · exact Or.inr ⟨x, List.mem_cons_of_mem _ hx, hpx, hy⟩

theorem find?_append_cases {α : Type} {p : α → Bool} (l l2 : List α) :
    (l ++ l2).find? p =
      (match l.find? p with
       | some x => some x
       | none => l2.find? p) := by
  induction l with
  | nil => simp
  | cons x xs ih =>
    by_cases hp : p x
    · simp [List.find?_cons_of_pos _ hp]
    · simpa [List.find?_cons_of_neg _ hp] using ih

theorem find?_eq_of_nodup_key {α : Type} {g : α → Nat} {p : α → Bool}
    {l : List α} {x : α} (hnd : (l.map g).Nodup) (hx : x ∈ l)
    (hpx : p x = true) (hkey : ∀ y ∈ l, p y = true → g y = g x) :
    l.find? p = some x := by
  have hs : (l.find? p).isSome := List.find?_isSome.mpr ⟨x, hx, hpx⟩
  obtain ⟨y, hy⟩ := Option.isSome_iff_exists.mp hs
  have hmem : y ∈ l := List.mem_of_find?_eq_some hy
  have hpy : p y = true := List.find?_some hy
  have : y = x := List.inj_on_of_nodup_map hnd hmem hx (hkey y hmem hpy)
  rw [hy, this]

/-! ## Lemmas: stock-row primitives -/

theorem keyMatch_fields {o i : Nat} {s : StockLevel} (h : keyMatch o i s = true) :
    s.outlet_id = o ∧ s.ingredient_id = i := by
  simpa [keyMatch] using h

theorem keyMatch_qty (o i : Nat) (s : StockLevel) (q : ℚ) :
    keyMatch o i { s with qty_on_hand := q } = keyMatch o i s := by
  simp [keyMatch]

theorem keyMatch_qty_cost (o i : Nat) (s : StockLevel) (q : ℚ) (c : Option ℚ) :
    keyMatch o i { s with qty_on_hand := q, last_cost := c } = keyMatch o i s := by
  simp [keyMatch]

theorem keyMatch_of_ne {o i o2 i2 : Nat} {s : StockLevel}
    (h : keyMatch o i s = true) (hne : ¬(o2 = o ∧ i2 = i)) :
    keyMatch o2 i2 s = false := by
  obtain ⟨ho, hi⟩ := keyMatch_fields h
  by_contra hc
  have h2 : keyMatch o2 i2 s = true := by
    cases hk : keyMatch o2 i2 s
    · exact absurd hk hc
    · rfl
  obtain ⟨ho2, hi2⟩ := keyMatch_fields h2
  exact hne ⟨by rw [← ho2, ho], by rw [← hi2, hi]⟩

theorem findStock_setQtyFirst_self {st : List StockLevel} {o i : Nat} {row : StockLevel}
    (h : findStock st o i = some row) (q : ℚ) :
    findStock (setQtyFirst st o i q) o i = some { row with qty_on_hand := q } := by
  have hk : keyMatch o i row = true := List.find?_some h
  exact find?_updateFirst_self h (by rw [keyMatch_qty]; exact hk)

theorem findStock_setQtyFirst_other {st : List StockLevel} {o i o2 i2 : Nat}
    (hne : ¬(o2 = o ∧ i2 = i)) (q : ℚ) :
    findStock (setQtyFirst st o i q) o2 i2 = findStock st o2 i2 := by
  refine find?_updateFirst_of_disjoint (fun x hx => ?_)
  exact ⟨keyMatch_of_ne hx hne, by rw [keyMatch_qty]; exact keyMatch_of_ne hx hne⟩

theorem setQtyFirst_of_none {st : List StockLevel} {o i : Nat}
    (h : findStock st o i = none) (q : ℚ) : setQtyFirst st o i q = st :=
  updateFirst_eq_of_find?_none h

theorem findStock_setQtyCostFirst_self {st : List StockLevel} {o i : Nat}
    {row : StockLevel} (h : findStock st o i = some row) (q : ℚ) (c : Option ℚ) :
    findStock (setQtyCostFirst st o i q c) o i =
      some { row with qty_on_hand := q, last_cost := c } := by
  have hk : keyMatch o i row = true := List.find?_some h
  exact find?_updateFirst_self h (by rw [keyMatch_qty_cost]; exact hk)

theorem findStock_setQtyCostFirst_other {st : List StockLevel} {o i o2 i2 : Nat}
    (hne : ¬(o2 = o ∧ i2 = i)) (q : ℚ) (c : Option ℚ) :
    findStock (setQtyCostFirst st o i q c) o2 i2 = findStock st o2 i2 := by
  refine find?_updateFirst_of_disjoint (fun x hx => ?_)
  exact ⟨keyMatch_of_ne hx hne,
    by rw [keyMatch_qty_cost]; exact keyMatch_of_ne hx hne⟩

theorem findStock_addStockQty_self {st : List StockLevel} {o i : Nat}
    {row : StockLevel} (h : findStock st o i = some row) (d : ℚ) :
    findStock (addStockQty st o i d) o i =
      some { row with qty_on_hand := row.qty_on_hand + d } := by
  induction st with
  | nil => simp [findStock] at h
  | cons x xs ih =>
    by_cases hk : keyMatch o i x
    · rw [findStock, List.find?_cons_of_pos _ hk] at h
      cases h
      simp only [addStockQty, List.map_cons, if_pos hk]
      rw [findStock]
      exact List.find?_cons_of_pos _ (by rw [keyMatch_qty]; exact hk)
    · rw [findStock, List.find?_cons_of_neg _ hk] at h
      simp only [addStockQty, List.map_cons, if_neg hk]
      rw [findStock, List.find?_cons_of_neg _ hk]
      exact ih h

theorem findStock_addStockQty_other {st : List StockLevel} {o i o2 i2 : Nat}
    (hne : ¬(o2 = o ∧ i2 = i)) (d : ℚ) :
    findStock (addStockQty st o i d) o2 i2 = findStock st o2 i2 := by
  induction st with
  | nil => rfl
  | cons x xs ih =>
    by_cases hk : keyMatch o i x
    · have h2 : keyMatch o2 i2 x = false := keyMatch_of_ne hk hne
      simp only [addStockQty, List.map_cons, if_pos hk]
      rw [findStock, List.find?_cons_of_neg _ (by rw [keyMatch_qty]; simp [h2]),
          findStock, List.find?_cons_of_neg _ (by simp [h2])]
      exact ih
    · simp only [addStockQty, List.map_cons, if_neg hk]
      by_cases hq : keyMatch o2 i2 x
      · rw [findStock, List.find?_cons_of_pos _ hq, findStock,
            List.find?_cons_of_pos _ hq]
      · rw [findStock, List.find?_cons_of_neg _ hq, findStock,
            List.find?_cons_of_neg _ hq]
        exact ih

theorem findStock_append_of_none {st : List StockLevel} {o i : Nat}
    (h : findStock st o i = none) (l2 : List StockLevel) :
    findStock (st ++ l2) o i = findStock l2 o i := by
  rw [findStock, find?_append_cases]
  rw [findStock] at h
  simp [h, findStock]

theorem findStock_append_of_some {st : List StockLevel} {o i : Nat}
    {row : StockLevel} (h : findStock st o i = some row) (l2 : List StockLevel) :
    findStock (st ++ l2) o i = some row := by
  rw [findStock, find?_append_cases]
  rw [findStock] at h
  simp [h]

/-! ## Lemmas: ledger reconciliation -/

theorem stockQty_some {st : List StockLevel} {o i : Nat} {r : StockLevel}
    (h : findStock st o i = some r) : stockQty st o i = r.qty_on_hand := by
  rw [stockQty, h]

theorem stockQty_none {st : List StockLevel} {o i : Nat}
    (h : findStock st o i = none) : stockQty st o i = 0 := by
  rw [stockQty, h]

theorem ledgerSum_append_one (lg : List LedgerEntry) (e : LedgerEntry) (o i : Nat) :
    ledgerSum (lg ++ [e]) o i =
      ledgerSum lg o i +
        (if e.outlet_id = o ∧ e.ingredient_id = i then e.change_qty else 0) := by
  by_cases h : e.outlet_id = o ∧ e.ingredient_id = i
  · simp [ledgerSum, List.filter_append, h.1, h.2, if_pos h]
  · have hb : (e.outlet_id == o && e.ingredient_id == i) = false := by
      rcases not_and_or.mp h with h1 | h1 <;> simp [h1]
    simp [ledgerSum, List.filter_append, hb, if_neg h]

/-- Reconciliation of a stock table against a ledger: for every key, the
cached quantity equals the sum of ledger movements. -/
def recon2 (stocks : List StockLevel) (ledger : List LedgerEntry) : Prop :=
  ∀ o i, stockQty stocks o i = ledgerSum ledger o i

/-- The ledger-stock invariant of the full state. -/
def reconciled (s : St) : Prop :=
  recon2 s.inventory_stock s.inventory_ledger

theorem recon2_addStockQty {st : List StockLevel} {lg : List LedgerEntry}
    {o i : Nat} {row : StockLevel} (h : recon2 st lg)
    (hrow : findStock st o i = some row) {e : LedgerEntry}
    (heo : e.outlet_id = o) (hei : e.ingredient_id = i) :
    recon2 (addStockQty st o i e.change_qty) (lg ++ [e]) := by
  intro o2 i2
  rw [ledgerSum_append_one]
  by_cases hk : o2 = o ∧ i2 = i
  · obtain ⟨rfl, rfl⟩ := hk
    rw [stockQty_some (findStock_addStockQty_self hrow e.change_qty)]
    rw [if_pos ⟨heo, hei⟩, ← h o2 i2, stockQty_some hrow]
  · rw [stockQty, findStock_addStockQty_other hk, ← stockQty,
      if_neg (fun hc => hk ⟨hc.1.symm.trans heo, hc.2.symm.trans hei⟩),
      h o2 i2, add_zero]

theorem recon2_setQtyFirst {st : List StockLevel} {lg : List LedgerEntry}
    {o i : Nat} {row : StockLevel} (h : recon2 st lg)
    (hrow : findStock st o i = some row) {e : LedgerEntry}
    (heo : e.outlet_id = o) (hei : e.ingredient_id = i) :
    recon2 (setQtyFirst st o i (row.qty_on_hand + e.change_qty)) (lg ++ [e]) := by
  intro o2 i2
  rw [ledgerSum_append_one]
  by_cases hk : o2 = o ∧ i2 = i
  · obtain ⟨rfl, rfl⟩ := hk
    rw [stockQty_some (findStock_setQtyFirst_self hrow _)]
    rw [if_pos ⟨heo, hei⟩, ← h o2 i2, stockQty_some hrow]
  · rw [stockQty, findStock_setQtyFirst_other hk, ← stockQty,
      if_neg (fun hc => hk ⟨hc.1.symm.trans heo, hc.2.symm.trans hei⟩),
      h o2 i2, add_zero]

theorem recon2_setQtyCostFirst {st : List StockLevel} {lg : List LedgerEntry}
    {o i : Nat} {row : StockLevel} (h : recon2 st lg)
    (hrow : findStock st o i = some row) {e : LedgerEntry} {c : Option ℚ}
    (heo : e.outlet_id = o) (hei : e.ingredient_id = i) :
    recon2 (setQtyCostFirst st o i (row.qty_on_hand + e.change_qty) c)
      (lg ++ [e]) := by
  intro o2 i2
  rw [ledgerSum_append_one]
  by_cases hk : o2 = o ∧ i2 = i
  · obtain ⟨rfl, rfl⟩ := hk
    rw [stockQty_some (findStock_setQtyCostFirst_self hrow _ c)]
    rw [if_pos ⟨heo, hei⟩, ← h o2 i2, stockQty_some hrow]
  · rw [stockQty, findStock_setQtyCostFirst_other hk, ← stockQty,
      if_neg (fun hc => hk ⟨hc.1.symm.trans heo, hc.2.symm.trans hei⟩),
      h o2 i2, add_zero]

theorem recon2_insertRow {st : List StockLevel} {lg : List LedgerEntry}
    {o i : Nat} (h : recon2 st lg) (hnone : findStock st o i = none)
    {row : StockLevel} (hro : row.outlet_id = o) (hri : row.ingredient_id = i)
    {e : LedgerEntry} (heo : e.outlet_id = o) (hei : e.ingredient_id = i)
    (hq : row.qty_on_hand = e.change_qty) :
    recon2 (st ++ [row]) (lg ++ [e]) := by
  have hkrow : keyMatch o i row = true := by simp [keyMatch, hro, hri]
  intro o2 i2
  rw [ledgerSum_append_one]
  by_cases hk : o2 = o ∧ i2 = i
  · obtain ⟨rfl, rfl⟩ := hk
    have hfound : findStock (st ++ [row]) o2 i2 = some row := by
      rw [findStock_append_of_none hnone, findStock,
        List.find?_cons_of_pos _ hkrow]
    rw [stockQty_some hfound, if_pos ⟨heo, hei⟩, hq, ← h o2 i2,
      stockQty_none hnone, zero_add]
  · have hk2 : keyMatch o2 i2 row = false := keyMatch_of_ne hkrow hk
    have hne := fun (hc : e.outlet_id = o2 ∧ e.ingredient_id = i2) =>
      hk ⟨hc.1.symm.trans heo, hc.2.symm.trans hei⟩
    cases hfind : findStock st o2 i2 with
    | some r =>
      rw [stockQty_some (findStock_append_of_some hfind [row]), if_neg hne,
        add_zero, ← h o2 i2, stockQty_some hfind]
    | none =>
      have hfound : findStock (st ++ [row]) o2 i2 = none := by
        rw [findStock_append_of_none hfind, findStock,
          List.find?_cons_of_neg _ (by simp [hk2])]
        rfl
      rw [stockQty_none hfound, if_neg hne, add_zero, ← h o2 i2,
        stockQty_none hfind]

theorem recon_adjust {org : Nat} {req : AdjustmentReq} {s s2 : St}
    (h : createInventoryAdjustment org req s = .ok s2) (hr : reconciled s) :
    reconciled s2 := by
  unfold createInventoryAdjustment at h
  split at h
  · exact absurd h (by simp)
  split at h
  · exact absurd h (by simp)
  simp only [] at h
  split at h
  · split at h
    · exact absurd h (by simp)
    · injection h with h
      subst h
      exact recon2_setQtyFirst (e :=
        { organization_id := org, outlet_id := req.outlet_id,
          ingredient_id := req.ingredient_id, change_qty := req.adjustment_qty,
          source_type := .adjustment, source_id := none, unit_id := req.unit_id,
          unit_cost := none, total_cost := none }) hr (by assumption) rfl rfl
  · split at h
    · exact absurd h (by simp)
    · injection h with h
      subst h
      exact recon2_insertRow (e :=
        { organization_id := org, outlet_id := req.outlet_id,
          ingredient_id := req.ingredient_id, change_qty := req.adjustment_qty,
          source_type := .adjustment, source_id := none, unit_id := req.unit_id,
          unit_cost := none, total_cost := none }) hr (by assumption) rfl rfl
        rfl rfl rfl

theorem recon_shipItems {org fromOutlet tid : Nat} :
    ∀ {items : List StockTransferItem} {s s2 : St},
    shipItems org fromOutlet tid items s = .ok s2 → reconciled s → reconciled s2 := by
  intro items
  induction items with
  | nil =>
    intro s s2 h hr
    unfold shipItems at h
    injection h with h
    subst h
    exact hr
  | cons item rest ih =>
    intro s s2 h hr
    unfold shipItems at h
    split at h
    · exact absurd h (by simp)
    next stock hfind =>
      split at h
      · exact absurd h (by simp)
      next hqty =>
        refine ih h ?_
        have hstep := recon2_setQtyFirst (e :=
          { organization_id := org, outlet_id := fromOutlet,
            ingredient_id := item.ingredient_id, change_qty := -item.qty,
            source_type := .transferOut, source_id := some tid,
            unit_id := item.unit_id, unit_cost := optTruthy item.unit_cost,
            total_cost := optTruthy item.total_cost }) hr hfind rfl rfl
        rw [← sub_eq_add_neg] at hstep
        exact hstep

theorem recon_receivePOItems {org poid outlet : Nat} :
    ∀ (lines : List ReceivePOLine) (s : St), reconciled s →
      reconciled (receivePOItems org poid outlet lines s) := by
  intro lines
  induction lines with
  | nil => intro s hr; simpa only [receivePOItems] using hr
  | cons ld rest ih =>
    intro s hr
    simp only [receivePOItems]
    split
    · exact ih s hr
    next item hfound =>
      split
      next stock hfind =>
        refine ih _ ?_
        exact recon2_setQtyCostFirst (e :=
          { organization_id := org, outlet_id := outlet,
            ingredient_id := item.ingredient_id, change_qty := ld.qty_received,
            source_type := .purchase, source_id := some poid,
            unit_id := item.unit_id, unit_cost := some item.unit_cost,
            total_cost := some (ld.qty_received * item.unit_cost) }) hr hfind rfl rfl
      next hfind =>
        refine ih _ ?_
        exact recon2_insertRow (e :=
          { organization_id := org, outlet_id := outlet,
            ingredient_id := item.ingredient_id, change_qty := ld.qty_received,
            source_type := .purchase, source_id := some poid,
            unit_id := item.unit_id, unit_cost := some item.unit_cost,
            total_cost := some (ld.qty_received * item.unit_cost) }) hr hfind rfl
          rfl rfl rfl rfl

theorem recon_receiveTransferItems {org toOutlet tid : Nat} :
    ∀ (items : List StockTransferItem) (s : St), reconciled s →
      reconciled (receiveTransferItems org toOutlet tid items s) := by
  intro items
  induction items with
  | nil => intro s hr; simpa only [receiveTransferItems] using hr
  | cons item rest ih =>
    intro s hr
    simp only [receiveTransferItems]
    split
    next stock hfind =>
      refine ih _ ?_
      exact recon2_setQtyCostFirst (e :=
        { organization_id := org, outlet_id := toOutlet,
          ingredient_id := item.ingredient_id, change_qty := item.qty,
          source_type := .transferIn, source_id := some tid,
          unit_id := item.unit_id, unit_cost := optTruthy item.unit_cost,
          total_cost := optTruthy item.total_cost }) hr hfind rfl rfl
    next hfind =>
      refine ih _ ?_
      exact recon2_insertRow (e :=
        { organization_id := org, outlet_id := toOutlet,
          ingredient_id := item.ingredient_id, change_qty := item.qty,
          source_type := .transferIn, source_id := some tid,
          unit_id := item.unit_id, unit_cost := optTruthy item.unit_cost,
          total_cost := optTruthy item.total_cost }) hr hfind rfl rfl rfl rfl rfl

theorem addStockQty_of_none {st : List StockLevel} {o i : Nat}
    (h : findStock st o i = none) (d : ℚ) : addStockQty st o i d = st := by
  induction st with
  | nil => rfl
  | cons x xs ih =>
    by_cases hk : keyMatch o i x
    · rw [findStock, List.find?_cons_of_pos _ hk] at h
      exact absurd h (by simp)
    · rw [findStock, List.find?_cons_of_neg _ hk] at h
      simp only [addStockQty, List.map_cons, if_neg hk]
      exact congrArg (List.cons x) (ih h)

theorem isSome_addStockQty {st : List StockLevel} {o i o2 i2 : Nat} {d : ℚ} :
    (findStock (addStockQty st o i d) o2 i2).isSome =
      (findStock st o2 i2).isSome := by
  by_cases hk : o2 = o ∧ i2 = i
  · obtain ⟨rfl, rfl⟩ := hk
    cases hfind : findStock st o2 i2 with
    | some row => rw [findStock_addStockQty_self hfind]; rfl
    | none => rw [addStockQty_of_none hfind, hfind]
  · rw [findStock_addStockQty_other hk]

/-- Every usage line produced by the first sales loop has a stock row with
enough quantity on hand (this is precisely the availability check). -/
theorem buildUsage_spec {stocks : List StockLevel} {outlet : Nat} {lineQty : Int} :
    ∀ {ris : List RecipeItem} {res : List UsageLine × ℚ},
    buildUsage stocks outlet lineQty ris = .ok res →
    ∀ u ∈ res.1, ∃ row, findStock stocks outlet u.ingredient_id = some row ∧
      u.qty ≤ row.qty_on_hand := by
  intro ris
  induction ris with
  | nil =>
    intro res h u hu
    unfold buildUsage at h
    injection h with h
    subst h
    simp at hu
  | cons ri rest ih =>
    intro res h u hu
    unfold buildUsage at h
    split at h
    · exact absurd h (by simp)
    next stockRow hfind =>
      split at h
      · exact absurd h (by simp)
      next hqty =>
        split at h
        · exact absurd h (by simp)
        next restUsage restHpp hrest =>
          injection h with h
          subst h
          simp only [List.mem_cons] at hu
          rcases hu with hu | hu
          · subst hu
            exact ⟨stockRow, hfind, le_of_not_lt hqty⟩
          · exact ih hrest u hu

theorem prepareItems_nil {s : St} {org outlet : Nat} :
    prepareItems s org outlet [] = .ok [] := rfl

/-- The stock rows named by phase one all exist with enough quantity,
for every line of the prepared order. -/
theorem prepareItems_spec {s : St} {org outlet : Nat} :
    ∀ {lines : List SalesLineReq} {items : List PreparedItem},
    prepareItems s org outlet lines = .ok items →
    ∀ it ∈ items, ∀ u ∈ it.usage,
      ∃ row, findStock s.inventory_stock outlet u.ingredient_id = some row ∧
        u.qty ≤ row.qty_on_hand := by
  intro lines
  induction lines with
  | nil =>
    intro items h it hit
    unfold prepareItems at h
    injection h with h
    subst h
    simp at hit
  | cons line rest ih =>
    intro items h it hit
    unfold prepareItems at h
    split at h
    · exact absurd h (by simp)
    next menu hmenu =>
      split at h
      · exact absurd h (by simp)
      simp only [] at h
      split at h
      · exact absurd h (by simp)
      next usage hppTotal husage =>
        split at h
        · exact absurd h (by simp)
        next restItems hrest =>
          injection h with h
          subst h
          simp only [List.mem_cons] at hit
          rcases hit with hit | hit
          · subst hit
            intro u hu
            split at husage
            next r hrec =>
              exact buildUsage_spec husage u hu
            next hrec =>
              injection husage with husage
              injection husage with h1 h2
              subst h1
              simp at hu
          · exact ih hrest it hit

theorem isSome_applyUsages {org outlet oid : Nat} :
    ∀ (us : List UsageLine) (stocks : List StockLevel)
      (ledger : List LedgerEntry) (o2 i2 : Nat),
    (findStock (applyUsages org outlet oid us (stocks, ledger)).1 o2 i2).isSome =
      (findStock stocks o2 i2).isSome := by
  intro us
  induction us with
  | nil => intro stocks ledger o2 i2; rfl
  | cons u rest ih =>
    intro stocks ledger o2 i2
    simp only [applyUsages, applyUsage]
    rw [ih]
    exact isSome_addStockQty

theorem recon_applyUsages {org outlet oid : Nat} :
    ∀ (us : List UsageLine) (stocks : List StockLevel) (ledger : List LedgerEntry),
    recon2 stocks ledger →
    (∀ u ∈ us, (findStock stocks outlet u.ingredient_id).isSome) →
    recon2 (applyUsages org outlet oid us (stocks, ledger)).1
      (applyUsages org outlet oid us (stocks, ledger)).2 := by
  intro us
  induction us with
  | nil => intro stocks ledger hr _; exact hr
  | cons u rest ih =>
    intro stocks ledger hr hsome
    simp only [applyUsages, applyUsage]
    have hu := hsome u (List.mem_cons_self u rest)
    obtain ⟨row, hrow⟩ := Option.isSome_iff_exists.mp hu
    refine ih _ _ ?_ ?_
    · exact recon2_addStockQty (e :=
        { organization_id := org, outlet_id := outlet,
          ingredient_id := u.ingredient_id, change_qty := -u.qty,
          source_type := .sale, source_id := some oid, unit_id := u.unit_id,
          unit_cost := some u.unit_cost, total_cost := some u.total_cost })
        hr hrow rfl rfl
    · intro u2 hu2
      rw [isSome_addStockQty]
      exact hsome u2 (List.mem_cons_of_mem _ hu2)

theorem recon_applyItems {org outlet oid : Nat} :
    ∀ (items : List PreparedItem) (s : St), reconciled s →
    (∀ it ∈ items, ∀ u ∈ it.usage,
      (findStock s.inventory_stock outlet u.ingredient_id).isSome) →
    reconciled (applyItems org outlet oid items s) := by
  intro items
  induction items with
  | nil => intro s hr _; exact hr
  | cons it rest ih =>
    intro s hr hsome
    simp only [applyItems]
    refine ih _ ?_ ?_
    · exact recon_applyUsages it.usage _ _ hr
        (fun u hu => hsome it (List.mem_cons_self it rest) u hu)
    · intro it2 hit2 u hu
      have hred : (applyOneItem org outlet oid it s).inventory_stock =
          (applyUsages org outlet oid it.usage
            (s.inventory_stock, s.inventory_ledger)).1 := rfl
      rw [hred, isSome_applyUsages]
      exact hsome it2 (List.mem_cons_of_mem _ hit2) u hu

theorem recon_sale {org : Nat} {req : SalesOrderReq} {s s2 : St}
    (h : createSalesOrder org req s = .ok s2) (hr : reconciled s) :
    reconciled s2 := by
  unfold createSalesOrder at h
  split at h
  · exact absurd h (by simp)
  split at h
  · exact absurd h (by simp)
  next items hprep =>
    simp only [] at h
    injection h with h
    subst h
    refine recon_applyItems items _ hr ?_
    intro it hit u hu
    obtain ⟨row, hrow, _⟩ := prepareItems_spec hprep it hit u hu
    exact Option.isSome_iff_exists.mpr ⟨row, hrow⟩

theorem recon_receivePO {org poid : Nat} {req : List ReceivePOLine} {s s2 : St}
    (h : receivePurchaseOrder org poid req s = .ok s2) (hr : reconciled s) :
    reconciled s2 := by
  unfold receivePurchaseOrder at h
  split at h
  · exact absurd h (by simp)
  next po hpo =>
    split at h
    · simp only [] at h
      injection h with h
      subst h
      exact recon_receivePOItems req s hr
    · exact absurd h (by simp)

theorem recon_ship {org tid : Nat} {s s2 : St}
    (h : shipStockTransfer org tid s = .ok s2) (hr : reconciled s) :
    reconciled s2 := by
  unfold shipStockTransfer at h
  split at h
  · exact absurd h (by simp)
  next tr htr =>
    split at h
    · split at h
      · exact absurd h (by simp)
      next s1 hship =>
        simp only [] at h
        injection h with h
        subst h
        have hs1 := recon_shipItems hship hr
        exact hs1
    · exact absurd h (by simp)

theorem recon_receiveTransfer {org tid : Nat} {s s2 : St}
    (h : receiveStockTransfer org tid s = .ok s2) (hr : reconciled s) :
    reconciled s2 := by
  unfold receiveStockTransfer at h
  split at h
  · exact absurd h (by simp)
  next tr htr =>
    split at h
    · simp only [] at h
      split at h
      · injection h with h
        subst h
        exact recon_receiveTransferItems _ s hr
      · injection h with h
        subst h
        exact recon_receiveTransferItems _ s hr
    · exact absurd h (by simp)

/-- C1: for every (outlet, ingredient) pair, `StockLevel.qty_on_hand`
equals the sum of `LedgerEntry.change_qty` over the ledger entries for
that pair after every stock-affecting operation (sales order, manual
adjustment, purchase-order receive, transfer ship, transfer receive),
starting from a state in which the equality holds. -/
theorem c1_ledger_stock_reconciliation (s s2 : St) (op : Op)
    (hrec : reconciled s) (hstep : step op s = .ok s2) : reconciled s2 := by
  cases op with
  | sale org req => exact recon_sale hstep hrec
  | adjust org req => exact recon_adjust hstep hrec
  | receivePO org poid req => exact recon_receivePO hstep hrec
  | shipTransfer org tid => exact recon_ship hstep hrec
  | receiveTransfer org tid => exact recon_receiveTransfer hstep hrec

/-- Empty-tables base state used by concrete witnesses. -/
def st0 : St :=
  { organizations := [], outlets := [], ingredients := [], menus := [],
    recipes := [], recipe_items := [], inventory_stock := [],
    inventory_ledger := [], sales_orders := [], sales_order_items := [],
    purchase_orders := [], purchase_order_items := [], stock_transfers := [],
    stock_transfer_items := [], stock_requests := [], stock_request_items := [],
    unit_conversions := [], nextId := 100 }

def c1w_pre : St := { st0 with outlets := [⟨1, 1⟩], ingredients := [⟨7, 1⟩] }

def c1w_op : Op := .adjust 1 { ingredient_id := 7, outlet_id := 1,
                               adjustment_qty := 5, unit_id := 3 }

def c1w_post : St :=
  { c1w_pre with
    inventory_stock := [{ outlet_id := 1, ingredient_id := 7,
                          organization_id := 1, qty_on_hand := 5, min_qty := 0,
                          unit_id := 3, last_cost := none }],
    inventory_ledger := [{ organization_id := 1, outlet_id := 1,
                           ingredient_id := 7, change_qty := 5,
                           source_type := .adjustment, source_id := none,
                           unit_id := 3, unit_cost := none,
                           total_cost := none }] }

theorem c1_ledger_stock_reconciliation_witness :
    reconciled c1w_pre ∧ step c1w_op c1w_pre = .ok c1w_post ∧
      reconciled c1w_post :=
  ⟨fun _ _ => rfl, rfl,
    c1_ledger_stock_reconciliation c1w_pre c1w_post c1w_op (fun _ _ => rfl) rfl⟩

/-! ## Frame lemmas: no handler rewrites existing sales snapshots -/

theorem receivePOItems_frame {org poid outlet : Nat} :
    ∀ (lines : List ReceivePOLine) (s : St),
    (receivePOItems org poid outlet lines s).sales_order_items =
        s.sales_order_items ∧
      (receivePOItems org poid outlet lines s).sales_orders = s.sales_orders := by
  intro lines
  induction lines with
  | nil => intro s; exact ⟨rfl, rfl⟩
  | cons ld rest ih =>
    intro s
    simp only [receivePOItems]
    split
    · exact ih s
    · exact ⟨(ih _).1, (ih _).2⟩

theorem receiveTransferItems_frame {org toOutlet tid : Nat} :
    ∀ (items : List StockTransferItem) (s : St),
    (receiveTransferItems org toOutlet tid items s).sales_order_items =
        s.sales_order_items ∧
      (receiveTransferItems org toOutlet tid items s).sales_orders =
        s.sales_orders := by
  intro items
  induction items with
  | nil => intro s; exact ⟨rfl, rfl⟩
  | cons item rest ih =>
    intro s
    simp only [receiveTransferItems]
    exact ⟨(ih _).1, (ih _).2⟩

theorem approveItems_frame {toOutlet rid : Nat} :
    ∀ (lines : List ApproveLine) (s : St),
    (approveItems toOutlet rid lines s).sales_order_items =
        s.sales_order_items ∧
      (approveItems toOutlet rid lines s).sales_orders = s.sales_orders := by
  intro lines
  induction lines with
  | nil => intro s; exact ⟨rfl, rfl⟩
  | cons ld rest ih =>
    intro s
    simp only [approveItems]
    split
    · exact ih s
    · exact ⟨(ih _).1, (ih _).2⟩

theorem shipItems_frame {org fromOutlet tid : Nat} :
    ∀ {items : List StockTransferItem} {s s2 : St},
    shipItems org fromOutlet tid items s = .ok s2 →
    s2.sales_order_items = s.sales_order_items ∧
      s2.sales_orders = s.sales_orders := by
  intro items
  induction items with
  | nil =>
    intro s s2 h
    unfold shipItems at h
    injection h with h
    subst h
    exact ⟨rfl, rfl⟩
  | cons item rest ih =>
    intro s s2 h
    unfold shipItems at h
    split at h
    · exact absurd h (by simp)
    split at h
    · exact absurd h (by simp)
    · simp only [] at h
      have hih := ih h
      exact hih

theorem applyItems_frame {org outlet oid : Nat} :
    ∀ (items : List PreparedItem) (s : St),
    (∃ t, (applyItems org outlet oid items s).sales_order_items =
        s.sales_order_items ++ t) ∧
      (applyItems org outlet oid items s).sales_orders = s.sales_orders := by
  intro items
  induction items with
  | nil => intro s; exact ⟨⟨[], by simp [applyItems]⟩, by simp [applyItems]⟩
  | cons it rest ih =>
    intro s
    simp only [applyItems]
    constructor
    · obtain ⟨t, ht⟩ := (ih (applyOneItem org outlet oid it s)).1
      refine ⟨{ order_id := oid, menu_id := it.menu_id, qty := it.qty,
                price_at_that_time := it.price, hpp_at_that_time := it.hpp,
                total_item_amount := it.total,
                ingredient_usage := it.usage } :: t, ?_⟩
      rw [ht]
      simp [applyOneItem]
    · have h2 := (ih (applyOneItem org outlet oid it s)).2
      rw [h2]
      simp [applyOneItem]

/-- C4: once a SalesOrder exists, no later operation (recipe re-creation,
cost-changing receipts, approvals, menu creation, further sales, or
adjustments) rewrites any existing SalesOrderItem row — its
`price_at_that_time`, `hpp_at_that_time`, `total_item_amount`, and frozen
`ingredient_usage` included — nor any existing SalesOrder row: the
tables only ever grow by appending. -/
theorem c4_sales_snapshot_immutable (s s2 : St) (op : FullOp)
    (h : stepFull op s = .ok s2) :
    (∃ t, s2.sales_order_items = s.sales_order_items ++ t) ∧
      (∃ t2, s2.sales_orders = s.sales_orders ++ t2) := by
  cases op with
  | stock op =>
    cases op with
    | sale org req =>
      simp only [stepFull, step] at h
      unfold createSalesOrder at h
      split at h
      · exact absurd h (by simp)
      split at h
      · exact absurd h (by simp)
      next items hprep =>
        simp only [] at h
        injection h with h
        subst h
        obtain ⟨⟨t, ht⟩, hso⟩ :=
          @applyItems_frame org req.outlet_id s.nextId items _
        exact ⟨⟨t, ht⟩, ⟨_, hso⟩⟩
    | adjust org req =>
      simp only [stepFull, step] at h
      unfold createInventoryAdjustment at h
      split at h
      · exact absurd h (by simp)
      split at h
      · exact absurd h (by simp)
      simp only [] at h
      split at h
      · split at h
        · exact absurd h (by simp)
        · injection h with h
          subst h
          exact ⟨⟨[], by simp⟩, ⟨[], by simp⟩⟩
      · split at h
        · exact absurd h (by simp)
        · injection h with h
          subst h
          exact ⟨⟨[], by simp⟩, ⟨[], by simp⟩⟩
    | receivePO org poid req =>
      simp only [stepFull, step] at h
      unfold receivePurchaseOrder at h
      split at h
      · exact absurd h (by simp)
      next po hpo =>
        split at h
        · simp only [] at h
          injection h with h
          subst h
          obtain ⟨h1, h2⟩ := @receivePOItems_frame org poid po.outlet_id req s
          exact ⟨⟨[], by simp [h1]⟩, ⟨[], by simp [h2]⟩⟩
        · exact absurd h (by simp)
    | shipTransfer org tid =>
      simp only [stepFull, step] at h
      unfold shipStockTransfer at h
      split at h
      · exact absurd h (by simp)
      split at h
      · split at h
        · exact absurd h (by simp)
        next s1 hship =>
          simp only [] at h
          injection h with h
          subst h
          obtain ⟨h1, h2⟩ := shipItems_frame hship
          exact ⟨⟨[], by simp [h1]⟩, ⟨[], by simp [h2]⟩⟩
      · exact absurd h (by simp)
    | receiveTransfer org tid =>
      simp only [stepFull, step] at h
      unfold receiveStockTransfer at h
      split at h
      · exact absurd h (by simp)
      next tr htr =>
        split at h
        · simp only [] at h
          obtain ⟨h1, h2⟩ := @receiveTransferItems_frame org tr.to_outlet_id
            tid (transferItemsOf s.stock_transfer_items tid) s
          split at h
          · injection h with h
            subst h
            exact ⟨⟨[], by simp [h1]⟩, ⟨[], by simp [h2]⟩⟩
          · injection h with h
            subst h
            exact ⟨⟨[], by simp [h1]⟩, ⟨[], by simp [h2]⟩⟩
        · exact absurd h (by simp)
  | approveRequest org rid req =>
    simp only [stepFull] at h
    unfold approveStockRequest at h
    split at h
    · exact absurd h (by simp)
    next r hreq =>
      split at h
      · simp only [] at h
        injection h with h
        subst h
        obtain ⟨h1, h2⟩ := @approveItems_frame r.to_outlet_id rid req s
        exact ⟨⟨[], by simp [h1]⟩, ⟨[], by simp [h2]⟩⟩
      · exact absurd h (by simp)
  | newMenu org req =>
    simp only [stepFull] at h
    unfold createMenu at h
    split at h
    · exact absurd h (by simp)
    split at h
    · exact absurd h (by simp)
    · simp only [] at h
      injection h with h
      subst h
      split
      · exact ⟨⟨[], by simp⟩, ⟨[], by simp⟩⟩
      · exact ⟨⟨[], by simp⟩, ⟨[], by simp⟩⟩
  | newRecipe org mid req =>
    simp only [stepFull] at h
    unfold createRecipeForMenu at h
    split at h
    · exact absurd h (by simp)
    · simp only [] at h
      injection h with h
      subst h
      exact ⟨⟨[], by simp⟩, ⟨[], by simp⟩⟩

def c4w_op : FullOp := .stock c1w_op

theorem c4_sales_snapshot_immutable_witness :
    stepFull c4w_op c1w_pre = .ok c1w_post ∧
      ((∃ t, c1w_post.sales_order_items = c1w_pre.sales_order_items ++ t) ∧
        (∃ t2, c1w_post.sales_orders = c1w_pre.sales_orders ++ t2)) :=
  ⟨rfl, c4_sales_snapshot_immutable c1w_pre c1w_post c4w_op rfl⟩

/-! ## Recipe versioning (C5) -/

/-- At most one active recipe per menu. -/
def atMostOneActive (recipes : List Recipe) : Prop :=
  ∀ mid, recipes.countP (fun r => r.menu_id == mid && r.is_active) ≤ 1

/-- Ids referenced by menus and recipes stay below the fresh-id counter. -/
def idsBounded (s : St) : Prop :=
  (∀ m ∈ s.menus, m.menu_id < s.nextId) ∧ (∀ r ∈ s.recipes, r.menu_id < s.nextId)

/-- States reachable from a menu-and-recipe-free state by creating menus
(with optional embedded recipe) and recipe versions. -/
inductive MenuReach : St → Prop where
  | init (s : St) (hm : s.menus = []) (hr : s.recipes = []) : MenuReach s
  | menuStep {s s2 : St} (org : Nat) (req : MenuCreateReq) (h : MenuReach s)
      (hstep : createMenu org req s = .ok s2) : MenuReach s2
  | recipeStep {s s2 : St} (org mid : Nat) (req : RecipeCreateReq)
      (h : MenuReach s) (hstep : createRecipeForMenu org mid req s = .ok s2) :
      MenuReach s2

theorem countP_deactivate_self (recipes : List Recipe) (mid : Nat) :
    ((recipes.map (fun r =>
        if r.menu_id == mid then { r with is_active := false } else r)).countP
      (fun r => r.menu_id == mid && r.is_active)) = 0 := by
  rw [List.countP_eq_zero]
  intro r hr
  obtain ⟨r0, hr0, hfr⟩ := List.mem_map.mp hr
  by_cases hm : r0.menu_id == mid
  · rw [if_pos hm] at hfr
    subst hfr
    simp
  · rw [if_neg hm] at hfr
    subst hfr
    simp [hm]

theorem countP_deactivate_other (recipes : List Recipe) {mid m2 : Nat}
    (hne : m2 ≠ mid) :
    ((recipes.map (fun r =>
        if r.menu_id == mid then { r with is_active := false } else r)).countP
      (fun r => r.menu_id == m2 && r.is_active)) =
    recipes.countP (fun r => r.menu_id == m2 && r.is_active) := by
  induction recipes with
  | nil => rfl
  | cons r rest ih =>
    simp only [List.map_cons, List.countP_cons]
    rw [ih]
    by_cases hm : r.menu_id == mid
    · have hrmid : r.menu_id = mid := by simpa using hm
      have hr2 : (r.menu_id == m2) = false := by
        simp only [hrmid, beq_eq_false_iff_ne, ne_eq]
        omega
      rw [if_pos hm]
      simp [hr2]
    · rw [if_neg hm]

theorem findMenu_mem {s : St} {org mid : Nat} {m : Menu}
    (h : findMenu s org mid = some m) : m ∈ s.menus ∧ m.menu_id = mid := by
  refine ⟨List.mem_of_find?_eq_some h, ?_⟩
  have := List.find?_some h
  simp at this
  exact this.1

theorem createMenu_inv {org : Nat} {req : MenuCreateReq} {s s2 : St}
    (h : createMenu org req s = .ok s2)
    (hb : idsBounded s) (ha : atMostOneActive s.recipes) :
    idsBounded s2 ∧ atMostOneActive s2.recipes := by
  unfold createMenu at h
  split at h
  · exact absurd h (by simp)
  split at h
  · exact absurd h (by simp)
  simp only [] at h
  split at h
  · injection h with h
    subst h
    constructor
    · constructor
      · intro m hm
        simp only [List.mem_append, List.mem_singleton] at hm
        show m.menu_id < s.nextId + 1
        rcases hm with hm | hm
        · have := hb.1 m hm
          omega
        · subst hm
          show s.nextId < s.nextId + 1
          omega
      · intro r hr
        show r.menu_id < s.nextId + 1
        have := hb.2 r hr
        omega
    · exact ha
  next rp =>
    injection h with h
    subst h
    constructor
    · constructor
      · intro m hm
        simp only [List.mem_append, List.mem_singleton] at hm
        show m.menu_id < s.nextId + 1 + 1
        rcases hm with hm | hm
        · have := hb.1 m hm
          omega
        · subst hm
          show s.nextId < s.nextId + 1 + 1
          omega
      · intro r hr
        simp only [List.mem_append, List.mem_singleton] at hr
        show r.menu_id < s.nextId + 1 + 1
        rcases hr with hr | hr
        · have := hb.2 r hr
          omega
        · subst hr
          show s.nextId < s.nextId + 1 + 1
          omega
    · intro m2
      simp only [List.countP_append, List.countP_cons, List.countP_nil]
      by_cases hm : m2 = s.nextId
      · subst hm
        have hold : List.countP
            (fun r => r.menu_id == s.nextId && r.is_active) s.recipes = 0 := by
          rw [List.countP_eq_zero]
          intro r hr
          have hlt := hb.2 r hr
          simp only [Bool.and_eq_true, beq_iff_eq, not_and]
          intro heq
          omega
        rw [hold]
        simp
      · have hc : ((s.nextId == m2) = false) := by
          simp only [beq_eq_false_iff_ne, ne_eq]
          omega
        simpa [hc] using ha m2

theorem createRecipeForMenu_inv {org mid : Nat} {req : RecipeCreateReq}
    {s s2 : St} (h : createRecipeForMenu org mid req s = .ok s2)
    (hb : idsBounded s) (ha : atMostOneActive s.recipes) :
    idsBounded s2 ∧ atMostOneActive s2.recipes := by
  unfold createRecipeForMenu at h
  split at h
  · exact absurd h (by simp)
  next m hmenu =>
    simp only [] at h
    injection h with h
    subst h
    have hmid : mid < s.nextId := by
      obtain ⟨hmem, hid⟩ := findMenu_mem hmenu
      have := hb.1 m hmem
      omega
    constructor
    · constructor
      · intro m2 hm2
        show m2.menu_id < s.nextId + 1
        have := hb.1 m2 hm2
        omega
      · intro r hr
        simp only [List.mem_append, List.mem_singleton] at hr
        show r.menu_id < s.nextId + 1
        rcases hr with hr | hr
        · split at hr
          · obtain ⟨r0, hr0, hfr⟩ := List.mem_map.mp hr
            have hb0 := hb.2 r0 hr0
            split at hfr <;> subst hfr
            · show r0.menu_id < s.nextId + 1
              omega
            · omega
          · have := hb.2 r hr
            omega
        · subst hr
          show mid < s.nextId + 1
          omega
    · intro m2
      simp only [List.countP_append, List.countP_cons, List.countP_nil]
      by_cases hact : req.is_active
      · rw [if_pos hact]
        by_cases hm2 : m2 = mid
        · subst hm2
          rw [countP_deactivate_self]
          simp [hact]
        · rw [countP_deactivate_other _ hm2]
          have hc : ((mid == m2) = false) := by
            simp only [beq_eq_false_iff_ne, ne_eq]
            omega
          simpa [hc] using ha m2
      · rw [if_neg hact]
        have hf : req.is_active = false := by
          revert hact
          cases req.is_active <;> simp
        simpa [hf] using ha m2

theorem menuReach_inv {s : St} (h : MenuReach s) :
    idsBounded s ∧ atMostOneActive s.recipes := by
  induction h with
  | init s hm hr =>
    constructor
    · exact ⟨fun m hm2 => by simp [hm] at hm2, fun r hr2 => by simp [hr] at hr2⟩
    · intro mid
      simp [hr, List.countP_nil]
  | menuStep org req h hstep ih => exact createMenu_inv hstep ih.1 ih.2
  | recipeStep org mid req h hstep ih =>
    exact createRecipeForMenu_inv hstep ih.1 ih.2

theorem createRecipeForMenu_deactivates {org mid : Nat} {req : RecipeCreateReq}
    {s s2 : St} (hact : req.is_active = true)
    (h : createRecipeForMenu org mid req s = .ok s2) :
    ∀ r ∈ s2.recipes, r.menu_id = mid → r.is_active = true →
      r.recipe_id = s.nextId := by
  unfold createRecipeForMenu at h
  split at h
  · exact absurd h (by simp)
  next m hmenu =>
    simp only [] at h
    injection h with h
    subst h
    intro r hr hrm hra
    simp only [List.mem_append, List.mem_singleton] at hr
    rcases hr with hr | hr
    · rw [if_pos hact] at hr
      obtain ⟨r0, hr0, hfr⟩ := List.mem_map.mp hr
      split at hfr
      · rw [← hfr] at hra
        simp at hra
      next hm0 =>
        subst hfr
        rw [hrm] at hm0
        simp at hm0
    · subst hr
      rfl

/-- C5: in every state reachable by creating menus and recipe versions,
at most one recipe per menu is active; and creating a new active recipe
version deactivates all previously active recipes of that menu in the
same operation, so the only active recipe of the menu afterwards is the
newly inserted row. -/
theorem c5_single_active_recipe (s : St) (h : MenuReach s) :
    atMostOneActive s.recipes ∧
      (∀ org mid req s2, req.is_active = true →
        createRecipeForMenu org mid req s = .ok s2 →
        ∀ r ∈ s2.recipes, r.menu_id = mid → r.is_active = true →
          r.recipe_id = s.nextId) :=
  ⟨(menuReach_inv h).2,
    fun _ _ _ _ hact hstep => createRecipeForMenu_deactivates hact hstep⟩

def c5w_pre : St := { st0 with organizations := [⟨1, 10⟩] }

def c5w_req : MenuCreateReq :=
  { price := 20, recipe := some { version := 1, items := [⟨7, 2, 3⟩] } }

def c5w_s2 : St :=
  { c5w_pre with
    menus := [{ menu_id := 100, organization_id := 1, price := 20,
                is_active := true }],
    recipes := [{ recipe_id := 101, menu_id := 100, version := 1,
                  is_active := true }],
    recipe_items := [{ recipe_id := 101, ingredient_id := 7, qty := 2,
                       unit_id := 3 }],
    nextId := 102 }

theorem c5_single_active_recipe_witness :
    MenuReach c5w_s2 ∧
      (atMostOneActive c5w_s2.recipes ∧
        (∀ org mid req s2, req.is_active = true →
          createRecipeForMenu org mid req c5w_s2 = .ok s2 →
          ∀ r ∈ s2.recipes, r.menu_id = mid → r.is_active = true →
            r.recipe_id = c5w_s2.nextId)) :=
  ⟨MenuReach.menuStep 1 c5w_req (MenuReach.init c5w_pre rfl rfl) rfl,
    c5_single_active_recipe c5w_s2
      (MenuReach.menuStep 1 c5w_req (MenuReach.init c5w_pre rfl rfl) rfl)⟩

/-! ## Non-negative stock (C3) -/

/-- Every stock row carries a non-negative quantity. -/
def nonnegStocks (stocks : List StockLevel) : Prop :=
  ∀ sl ∈ stocks, 0 ≤ sl.qty_on_hand

/-- One stock row per (outlet, ingredient), as the database enforces. -/
def uniqueStockKeys (stocks : List StockLevel) : Prop :=
  stocks.Pairwise
    (fun a b => ¬(a.outlet_id = b.outlet_id ∧ a.ingredient_id = b.ingredient_id))

/-- All usage lines of a prepared order, in processing order. -/
def allUsages (items : List PreparedItem) : List UsageLine :=
  items.bind (fun it => it.usage)

theorem mem_addStockQty {st : List StockLevel} {o i : Nat} {d : ℚ} {y : StockLevel}
    (h : y ∈ addStockQty st o i d) :
    ∃ x ∈ st, (keyMatch o i x = false ∧ y = x) ∨
      (keyMatch o i x = true ∧ y = { x with qty_on_hand := x.qty_on_hand + d }) := by
  obtain ⟨x, hx, hfx⟩ := List.mem_map.mp h
  refine ⟨x, hx, ?_⟩
  by_cases hk : keyMatch o i x
  · right
    rw [if_pos hk] at hfx
    exact ⟨hk, hfx.symm⟩
  · left
    rw [if_neg hk] at hfx
    exact ⟨Bool.eq_false_iff.mpr hk, hfx.symm⟩

theorem mem_setQtyFirst {st : List StockLevel} {o i : Nat} {q : ℚ} {y : StockLevel}
    (h : y ∈ setQtyFirst st o i q) :
    y ∈ st ∨ ∃ x, x ∈ st ∧ keyMatch o i x = true ∧
      y = { x with qty_on_hand := q } :=
  mem_updateFirst h

theorem findStock_eq_of_unique {stocks : List StockLevel} {o i : Nat}
    {x : StockLevel} (hu : uniqueStockKeys stocks) (hx : x ∈ stocks)
    (hk : keyMatch o i x = true) : findStock stocks o i = some x := by
  induction stocks with
  | nil => simp at hx
  | cons z rest ih =>
    obtain ⟨hz, hrest⟩ := List.pairwise_cons.mp hu
    rcases List.mem_cons.mp hx with hxz | hxr
    · subst hxz
      rw [findStock, List.find?_cons_of_pos _ hk]
    · by_cases hkz : keyMatch o i z
      · obtain ⟨ho, hi⟩ := keyMatch_fields hk
        obtain ⟨ho2, hi2⟩ := keyMatch_fields hkz
        exact absurd ⟨ho2.trans ho.symm, hi2.trans hi.symm⟩ (hz x hxr)
      · rw [findStock, List.find?_cons_of_neg _ hkz]
        exact ih hrest hxr

theorem addStockQty_keys (o i : Nat) (d : ℚ) (x : StockLevel) :
    ((if keyMatch o i x then { x with qty_on_hand := x.qty_on_hand + d }
      else x).outlet_id = x.outlet_id) ∧
    ((if keyMatch o i x then { x with qty_on_hand := x.qty_on_hand + d }
      else x).ingredient_id = x.ingredient_id) := by
  by_cases hk : keyMatch o i x
  · rw [if_pos hk]
    exact ⟨rfl, rfl⟩
  · rw [if_neg hk]
    exact ⟨rfl, rfl⟩

theorem uniqueStockKeys_addStockQty {st : List StockLevel} {o i : Nat} {d : ℚ}
    (hu : uniqueStockKeys st) : uniqueStockKeys (addStockQty st o i d) := by
  refine List.Pairwise.map _ (fun a b hab => ?_) hu
  obtain ⟨hao, hai⟩ := addStockQty_keys o i d a
  obtain ⟨hbo, hbi⟩ := addStockQty_keys o i d b
  rw [hao, hai, hbo, hbi]
  exact hab

theorem nonneg_applyUsages {org outlet oid : Nat} :
    ∀ (us : List UsageLine) (stocks : List StockLevel) (lg : List LedgerEntry),
    uniqueStockKeys stocks →
    nonnegStocks stocks →
    ((us.map (fun u => u.ingredient_id)).Nodup) →
    (∀ u ∈ us, ∃ row, findStock stocks outlet u.ingredient_id = some row ∧
      u.qty ≤ row.qty_on_hand) →
    nonnegStocks (applyUsages org outlet oid us (stocks, lg)).1 := by
  intro us
  induction us with
  | nil => intro stocks lg _ hn _ _; exact hn
  | cons u rest ih =>
    intro stocks lg hu hn hnodup hbound
    simp only [applyUsages, applyUsage]
    obtain ⟨row, hrow, hqle⟩ := hbound u (List.mem_cons_self u rest)
    rw [List.map_cons, List.nodup_cons] at hnodup
    obtain ⟨hnd1, hnd2⟩ := hnodup
    refine ih _ _ ?_ ?_ hnd2 ?_
    · exact uniqueStockKeys_addStockQty hu
    · intro y hy
      obtain ⟨x, hx, hcase⟩ := mem_addStockQty hy
      rcases hcase with ⟨_, rfl⟩ | ⟨hk, rfl⟩
      · exact hn _ hx
      · have hxrow : x = row := by
          have hfind := findStock_eq_of_unique hu hx hk
          rw [hrow] at hfind
          injection hfind with hfind
          exact hfind.symm
        subst hxrow
        show 0 ≤ x.qty_on_hand + -u.qty
        linarith
    · intro u2 hu2
      obtain ⟨row2, hrow2, hqle2⟩ := hbound u2 (List.mem_cons_of_mem _ hu2)
      have hne : ¬(outlet = outlet ∧ u2.ingredient_id = u.ingredient_id) := by
        intro hc
        refine hnd1 ?_
        rw [← hc.2]
        exact List.mem_map_of_mem (fun u => u.ingredient_id) hu2
      rw [findStock_addStockQty_other hne]
      exact ⟨row2, hrow2, hqle2⟩

theorem applyUsages_append {org outlet oid : Nat} :
    ∀ (us1 us2 : List UsageLine) (acc : List StockLevel × List LedgerEntry),
    applyUsages org outlet oid (us1 ++ us2) acc =
      applyUsages org outlet oid us2 (applyUsages org outlet oid us1 acc) := by
  intro us1
  induction us1 with
  | nil => intro us2 acc; rfl
  | cons u rest ih =>
    intro us2 acc
    obtain ⟨stocks, lg⟩ := acc
    simp only [List.cons_append, applyUsages]
    exact ih us2 _

theorem applyItems_stocks {org outlet oid : Nat} :
    ∀ (items : List PreparedItem) (s : St),
    (applyItems org outlet oid items s).inventory_stock =
      (applyUsages org outlet oid (allUsages items)
        (s.inventory_stock, s.inventory_ledger)).1 := by
  intro items
  induction items with
  | nil => intro s; rfl
  | cons it rest ih =>
    intro s
    simp only [applyItems]
    rw [ih]
    have hall : allUsages (it :: rest) = it.usage ++ allUsages rest := rfl
    rw [hall, applyUsages_append]
    rfl

theorem nonneg_adjust {org : Nat} {req : AdjustmentReq} {s s2 : St}
    (h : createInventoryAdjustment org req s = .ok s2)
    (hn : nonnegStocks s.inventory_stock) : nonnegStocks s2.inventory_stock := by
  unfold createInventoryAdjustment at h
  split at h
  · exact absurd h (by simp)
  split at h
  · exact absurd h (by simp)
  simp only [] at h
  split at h
  next stock hfind =>
    split at h
    · exact absurd h (by simp)
    next hnewlt =>
      injection h with h
      subst h
      intro y hy
      rcases mem_setQtyFirst hy with hy2 | ⟨x, hx, hk, rfl⟩
      · exact hn y hy2
      · show 0 ≤ stock.qty_on_hand + req.adjustment_qty
        exact le_of_not_lt hnewlt
  · split at h
    · exact absurd h (by simp)
    next hneg =>
      injection h with h
      subst h
      intro y hy
      rcases List.mem_append.mp hy with hy2 | hy2
      · exact hn y hy2
      · rw [List.mem_singleton] at hy2
        subst hy2
        show (0 : ℚ) ≤ req.adjustment_qty
        exact le_of_not_lt hneg

theorem nonneg_shipItems {org fromOutlet tid : Nat} :
    ∀ {items : List StockTransferItem} {s s2 : St},
    shipItems org fromOutlet tid items s = .ok s2 →
    nonnegStocks s.inventory_stock → nonnegStocks s2.inventory_stock := by
  intro items
  induction items with
  | nil =>
    intro s s2 h hn
    unfold shipItems at h
    injection h with h
    subst h
    exact hn
  | cons item rest ih =>
    intro s s2 h hn
    unfold shipItems at h
    split at h
    · exact absurd h (by simp)
    next stock hfind =>
      split at h
      · exact absurd h (by simp)
      next hqty =>
        simp only [] at h
        refine ih h ?_
        intro y hy
        rcases mem_setQtyFirst hy with hy2 | ⟨x, hx, hk, rfl⟩
        · exact hn y hy2
        · show 0 ≤ stock.qty_on_hand - item.qty
          have := le_of_not_lt hqty
          linarith

theorem nonneg_sale {org : Nat} {req : SalesOrderReq} {s s2 : St}
    (h : createSalesOrder org req s = .ok s2)
    (hu : uniqueStockKeys s.inventory_stock)
    (hn : nonnegStocks s.inventory_stock)
    (hnodup : ∀ items, prepareItems s org req.outlet_id req.items = .ok items →
      ((allUsages items).map (fun u => u.ingredient_id)).Nodup) :
    nonnegStocks s2.inventory_stock := by
  unfold createSalesOrder at h
  split at h
  · exact absurd h (by simp)
  split at h
  · exact absurd h (by simp)
  next items hprep =>
    simp only [] at h
    injection h with h
    subst h
    intro y hy
    rw [applyItems_stocks] at hy
    refine nonneg_applyUsages (allUsages items) _ _ hu hn (hnodup items hprep)
      ?_ y hy
    intro u hu2
    obtain ⟨it, hit, hu3⟩ := List.mem_bind.mp hu2
    exact prepareItems_spec hprep it hit u hu3

/-- Guard under which the amended no-negative-stock property holds:
unrestricted for manual adjustments and transfer ship; for sales orders,
stock keys must be unique (one row per outlet and ingredient, as in the
database) and no ingredient may occur in more than one usage line of the
prepared order.  Receiving operations are not covered by the claim. -/
def opGuard (s : St) : Op → Prop
  | .sale org req =>
    uniqueStockKeys s.inventory_stock ∧
      ∀ items, prepareItems s org req.outlet_id req.items = .ok items →
        ((allUsages items).map (fun u => u.ingredient_id)).Nodup
  | .adjust _ _ => True
  | .shipTransfer _ _ => True
  | .receivePO _ _ _ => False
  | .receiveTransfer _ _ => False

/-- C3 (amended): starting from non-negative stock, a successful manual
adjustment, transfer ship, or sales order in which no ingredient occurs
in more than one usage line leaves every `qty_on_hand` non-negative.
The restriction on sales orders is forced by the counterexample: two
lines sharing an ingredient are each checked against the same unmodified
stock and can jointly overdraw it. -/
theorem c3_no_negative_stock_amended (s s2 : St) (op : Op)
    (hn : nonnegStocks s.inventory_stock) (hg : opGuard s op)
    (hstep : step op s = .ok s2) : nonnegStocks s2.inventory_stock := by
  cases op with
  | sale org req => exact nonneg_sale hstep hg.1 hn hg.2
  | adjust org req => exact nonneg_adjust hstep hn
  | receivePO org poid req => exact absurd hg id
  | shipTransfer org tid =>
    simp only [step] at hstep
    unfold shipStockTransfer at hstep
    split at hstep
    · exact absurd hstep (by simp)
    · split at hstep
      · split at hstep
        · exact absurd hstep (by simp)
        next s1 hship =>
          simp only [] at hstep
          injection hstep with hstep
          subst hstep
          have hs1 := nonneg_shipItems hship hn
          exact hs1
      · exact absurd hstep (by simp)
  | receiveTransfer org tid => exact absurd hg id

/-- Counterexample state for C3 as stated: ingredient 7 has 5 on hand,
menu 10's active recipe needs 3 per unit. -/
def c3cex_s : St :=
  { st0 with
    outlets := [⟨1, 1⟩],
    menus := [⟨10, 1, 20, true⟩],
    recipes := [⟨20, 10, 1, true⟩],
    recipe_items := [⟨20, 7, 3, 1⟩],
    inventory_stock := [⟨1, 7, 1, 5, 0, 1, some 2⟩] }

/-- Two order lines for the same menu: each needs 3 of ingredient 7 and
each is checked against the same unmodified quantity 5. -/
def c3cex_req : SalesOrderReq := ⟨1, [⟨10, 1⟩, ⟨10, 1⟩]⟩

/-- Resulting state of the counterexample run: the order succeeds and
drives `qty_on_hand` of ingredient 7 to `-1`. -/
def c3cex_after : St :=
  { c3cex_s with
    inventory_stock := [⟨1, 7, 1, -1, 0, 1, some 2⟩],
    inventory_ledger :=
      [⟨1, 1, 7, -3, .sale, some 100, 1, some 2, some 6⟩,
       ⟨1, 1, 7, -3, .sale, some 100, 1, some 2, some 6⟩],
    sales_orders := [⟨100, 1, 1, 40⟩],
    sales_order_items :=
      [⟨100, 10, 1, 20, 6, 20, [⟨7, 3, 1, 2, 6⟩]⟩,
       ⟨100, 10, 1, 20, 6, 20, [⟨7, 3, 1, 2, 6⟩]⟩],
    nextId := 101 }

/-- C3 as stated is false on the code: from an all-non-negative,
well-formed state, a successful sales order whose two lines share an
ingredient drives `qty_on_hand` to `-1`. -/
theorem c3_no_negative_stock_counterexample :
    nonnegStocks c3cex_s.inventory_stock ∧
      uniqueStockKeys c3cex_s.inventory_stock ∧
      createSalesOrder 1 c3cex_req c3cex_s = .ok c3cex_after ∧
      stockQty c3cex_after.inventory_stock 1 7 = -1 ∧
      ¬ nonnegStocks c3cex_after.inventory_stock := by
  refine ⟨?_, ?_, ?_, ?_, ?_⟩
  · unfold nonnegStocks
    decide
  · unfold uniqueStockKeys
    decide
  · with_unfolding_all rfl
  · decide
  · unfold nonnegStocks
    decide

def c3w_pre : St :=
  { st0 with
    outlets := [⟨1, 1⟩, ⟨2, 1⟩],
    inventory_stock := [⟨1, 7, 1, 5, 0, 1, some 2⟩],
    stock_transfers := [⟨50, 1, .draft, 1, 2, none⟩],
    stock_transfer_items := [⟨50, 7, 3, 1, some 2, some 6⟩] }

def c3w_op : Op := .shipTransfer 1 50

def c3w_post : St :=
  { c3w_pre with
    inventory_stock := [⟨1, 7, 1, 2, 0, 1, some 2⟩],
    inventory_ledger := [⟨1, 1, 7, -3, .transferOut, some 50, 1, some 2, some 6⟩],
    stock_transfers := [⟨50, 1, .shipped, 1, 2, none⟩] }

theorem c3_no_negative_stock_amended_witness :
    nonnegStocks c3w_pre.inventory_stock ∧ opGuard c3w_pre c3w_op ∧
      step c3w_op c3w_pre = .ok c3w_post ∧
      nonnegStocks c3w_post.inventory_stock :=
  ⟨by unfold nonnegStocks; decide, trivial, by with_unfolding_all rfl,
    c3_no_negative_stock_amended c3w_pre c3w_post c3w_op
      (by unfold nonnegStocks; decide) trivial (by with_unfolding_all rfl)⟩

/-! ## Insufficient stock on sales orders (C2) -/

/-- The (ingredient, usage quantity) demands of one order line, as the
recipe loop computes them. -/
def lineUsages (s : St) (line : SalesLineReq) : List (Nat × ℚ) :=
  match activeRecipe s.recipes line.menu_id with
  | some r => (recipeItemsOf s.recipe_items r.recipe_id).map
      (fun ri => (ri.ingredient_id, ri.qty * (line.qty : ℚ)))
  | none => []

/-- A demand fails the availability check: the stock row is missing or
holds less than the usage quantity. -/
def shortPair (stocks : List StockLevel) (outlet : Nat) (p : Nat × ℚ) : Prop :=
  match findStock stocks outlet p.1 with
  | none => True
  | some row => row.qty_on_hand < p.2

/-- The line's menu resolves within the organization and is active. -/
def menuOkFor (s : St) (org : Nat) (line : SalesLineReq) : Prop :=
  ∃ m, findMenu s org line.menu_id = some m ∧ m.is_active = true

/-- State visible after the transaction: the new state on commit, the
unchanged pre-state on rollback (the handlers commit only at the end, so
an exception discards every write). -/
def persisted (r : Except Err St) (s : St) : St :=
  match r with
  | .ok s2 => s2
  | .error _ => s

theorem buildUsage_ok_of_no_short {stocks : List StockLevel} {outlet : Nat}
    {lineQty : Int} :
    ∀ {ris : List RecipeItem},
    (∀ ri ∈ ris, ¬ shortPair stocks outlet (ri.ingredient_id, ri.qty * (lineQty : ℚ))) →
    ∃ res, buildUsage stocks outlet lineQty ris = .ok res := by
  intro ris
  induction ris with
  | nil => intro _; exact ⟨([], 0), rfl⟩
  | cons ri rest ih =>
    intro hns
    have hhead := hns ri (List.mem_cons_self ri rest)
    unfold shortPair at hhead
    unfold buildUsage
    cases hfind : findStock stocks outlet ri.ingredient_id with
    | none =>
      rw [hfind] at hhead
      exact absurd trivial hhead
    | some stockRow =>
      rw [hfind] at hhead
      simp only [] at hhead
      obtain ⟨res, hres⟩ := ih (fun ri2 hri2 => hns ri2 (List.mem_cons_of_mem _ hri2))
      obtain ⟨us, hp⟩ := res
      simp only []
      rw [if_neg hhead, hres]
      exact ⟨_, rfl⟩

theorem buildUsage_err_of_short {stocks : List StockLevel} {outlet : Nat}
    {lineQty : Int} :
    ∀ {ris : List RecipeItem},
    (∃ ri ∈ ris, shortPair stocks outlet (ri.ingredient_id, ri.qty * (lineQty : ℚ))) →
    ∃ i, buildUsage stocks outlet lineQty ris = .error (.insufficientStock i) ∧
      ∃ ri ∈ ris, ri.ingredient_id = i ∧
        shortPair stocks outlet (ri.ingredient_id, ri.qty * (lineQty : ℚ)) := by
  intro ris
  induction ris with
  | nil => intro h; simp at h
  | cons ri rest ih =>
    intro hsh
    unfold buildUsage
    cases hfind : findStock stocks outlet ri.ingredient_id with
    | none =>
      refine ⟨ri.ingredient_id, rfl, ri, List.mem_cons_self ri rest, rfl, ?_⟩
      unfold shortPair
      simp only []
      rw [hfind]
      trivial
    | some stockRow =>
      simp only []
      by_cases hlt : stockRow.qty_on_hand < ri.qty * (lineQty : ℚ)
      · refine ⟨ri.ingredient_id, by rw [if_pos hlt], ri,
          List.mem_cons_self ri rest, rfl, ?_⟩
        unfold shortPair
        simp only []
        rw [hfind]
        exact hlt
      · have hheadok : ¬ shortPair stocks outlet
            (ri.ingredient_id, ri.qty * (lineQty : ℚ)) := by
          unfold shortPair
          simp only []
          rw [hfind]
          exact hlt
        obtain ⟨ri2, hri2, hsp⟩ := hsh
        have hri2rest : ri2 ∈ rest := by
          rcases List.mem_cons.mp hri2 with h1 | h1
          · subst h1; exact absurd hsp hheadok
          · exact h1
        obtain ⟨i, herr, ri3, hri3, hieq, hsp3⟩ := ih ⟨ri2, hri2rest, hsp⟩
        rw [if_neg hlt, herr]
        exact ⟨i, rfl, ri3, List.mem_cons_of_mem _ hri3, hieq, hsp3⟩

theorem prepareItems_err_of_short {s : St} {org outlet : Nat} :
    ∀ {lines : List SalesLineReq},
    (∀ line ∈ lines, menuOkFor s org line) →
    (∃ line ∈ lines, ∃ p ∈ lineUsages s line,
      shortPair s.inventory_stock outlet p) →
    ∃ i, prepareItems s org outlet lines = .error (.insufficientStock i) ∧
      ∃ line ∈ lines, ∃ p ∈ lineUsages s line, p.1 = i ∧
        shortPair s.inventory_stock outlet p := by
  intro lines
  induction lines with
  | nil => intro _ h; simp at h
  | cons line rest ih =>
    intro hmenus hsh
    obtain ⟨m, hm, hact⟩ := hmenus line (List.mem_cons_self line rest)
    unfold prepareItems
    rw [hm]
    simp only []
    rw [if_neg (show ¬((!m.is_active) = true) from by rw [hact]; simp)]
    by_cases hhead : ∃ p ∈ lineUsages s line, shortPair s.inventory_stock outlet p
    · obtain ⟨p, hp, hsp⟩ := hhead
      unfold lineUsages at hp
      cases hrec : activeRecipe s.recipes line.menu_id with
      | none => rw [hrec] at hp; simp at hp
      | some r =>
        rw [hrec] at hp
        simp only [] at hp
        obtain ⟨ri, hri, hpe⟩ := List.mem_map.mp hp
        have hshort2 : ∃ ri2 ∈ recipeItemsOf s.recipe_items r.recipe_id,
            shortPair s.inventory_stock outlet
              (ri2.ingredient_id, ri2.qty * ((line.qty : Int) : ℚ)) := by
          refine ⟨ri, hri, ?_⟩
          rw [hpe]
          exact hsp
        obtain ⟨i, herr, ri3, hri3, hieq, hsp3⟩ :=
          buildUsage_err_of_short hshort2
        simp only []
        rw [herr]
        refine ⟨i, rfl, line, List.mem_cons_self line rest, ?_⟩
        refine ⟨(ri3.ingredient_id, ri3.qty * ((line.qty : Int) : ℚ)), ?_, hieq, hsp3⟩
        unfold lineUsages
        rw [hrec]
        exact List.mem_map_of_mem _ hri3
    · have hrest : ∃ line2 ∈ rest, ∃ p ∈ lineUsages s line2,
          shortPair s.inventory_stock outlet p := by
        obtain ⟨line2, hline2, p, hp, hsp⟩ := hsh
        rcases List.mem_cons.mp hline2 with h1 | h1
        · subst h1; exact absurd ⟨p, hp, hsp⟩ hhead
        · exact ⟨line2, h1, p, hp, hsp⟩
      obtain ⟨i, herr, line3, hline3, hrest3⟩ :=
        ih (fun l hl => hmenus l (List.mem_cons_of_mem _ hl)) hrest
      cases hrec : activeRecipe s.recipes line.menu_id with
      | none =>
        simp only []
        rw [herr]
        exact ⟨i, rfl, line3, List.mem_cons_of_mem _ hline3, hrest3⟩
      | some r =>
        have hnos : ∀ ri ∈ recipeItemsOf s.recipe_items r.recipe_id,
            ¬ shortPair s.inventory_stock outlet
              (ri.ingredient_id, ri.qty * ((line.qty : Int) : ℚ)) := by
          intro ri hri hsp
          refine hhead ⟨(ri.ingredient_id, ri.qty * ((line.qty : Int) : ℚ)), ?_, hsp⟩
          unfold lineUsages
          rw [hrec]
          exact List.mem_map_of_mem _ hri
        obtain ⟨res, hres⟩ := buildUsage_ok_of_no_short hnos
        obtain ⟨us, hp⟩ := res
        simp only []
        rw [hres]
        simp only []
        rw [herr]
        exact ⟨i, rfl, line3, List.mem_cons_of_mem _ hline3, hrest3⟩

/-- C2: a sales order in which some computed ingredient demand exceeds
the outlet's quantity on hand (or hits a missing stock row) fails with
`InsufficientStock` naming a genuinely short ingredient, and the
persisted state is the unchanged pre-state: no SalesOrder, no
SalesOrderItems, no ledger entries survive the request. -/
theorem c2_insufficient_stock_all_or_nothing (s : St) (org : Nat)
    (req : SalesOrderReq)
    (hout : (findOutlet s org req.outlet_id).isSome = true)
    (hmenus : ∀ line ∈ req.items, menuOkFor s org line)
    (hshort : ∃ line ∈ req.items, ∃ p ∈ lineUsages s line,
      shortPair s.inventory_stock req.outlet_id p) :
    ∃ i, createSalesOrder org req s = .error (.insufficientStock i) ∧
      (∃ line ∈ req.items, ∃ p ∈ lineUsages s line, p.1 = i ∧
        shortPair s.inventory_stock req.outlet_id p) ∧
      persisted (createSalesOrder org req s) s = s := by
  obtain ⟨i, herr, hwit⟩ := prepareItems_err_of_short hmenus hshort
  obtain ⟨o, ho⟩ := Option.isSome_iff_exists.mp hout
  refine ⟨i, ?_, hwit, ?_⟩
  · unfold createSalesOrder
    rw [ho, herr]
  · unfold createSalesOrder
    rw [ho, herr]
    rfl

def c2w_s : St :=
  { st0 with
    outlets := [⟨1, 1⟩],
    menus := [⟨10, 1, 20, true⟩],
    recipes := [⟨20, 10, 1, true⟩],
    recipe_items := [⟨20, 7, 2, 1⟩],
    inventory_stock := [⟨1, 7, 1, 5, 0, 1, some 2⟩] }

/-- Selling 3 units of menu 10 demands 6 of ingredient 7; only 5 exist. -/
def c2w_req : SalesOrderReq := ⟨1, [⟨10, 3⟩]⟩

theorem c2_insufficient_stock_all_or_nothing_witness :
    (findOutlet c2w_s 1 c2w_req.outlet_id).isSome = true ∧
      (∀ line ∈ c2w_req.items, menuOkFor c2w_s 1 line) ∧
      (∃ line ∈ c2w_req.items, ∃ p ∈ lineUsages c2w_s line,
        shortPair c2w_s.inventory_stock c2w_req.outlet_id p) ∧
      (∃ i, createSalesOrder 1 c2w_req c2w_s = .error (.insufficientStock i) ∧
        (∃ line ∈ c2w_req.items, ∃ p ∈ lineUsages c2w_s line, p.1 = i ∧
          shortPair c2w_s.inventory_stock c2w_req.outlet_id p) ∧
        persisted (createSalesOrder 1 c2w_req c2w_s) c2w_s = c2w_s) := by
  have husages : lineUsages c2w_s ⟨10, 3⟩ = [(7, 6)] := by
    with_unfolding_all rfl
  have hmenus : ∀ line ∈ c2w_req.items, menuOkFor c2w_s 1 line := by
    intro line hline
    rw [show c2w_req.items = [⟨10, 3⟩] from rfl, List.mem_singleton] at hline
    subst hline
    exact ⟨⟨10, 1, 20, true⟩, rfl, rfl⟩
  have hshort : ∃ line ∈ c2w_req.items, ∃ p ∈ lineUsages c2w_s line,
      shortPair c2w_s.inventory_stock c2w_req.outlet_id p := by
    refine ⟨⟨10, 3⟩, by decide, (7, 6), ?_, ?_⟩
    · rw [husages]
      exact List.mem_singleton.mpr rfl
    · show (5 : ℚ) < 6
      norm_num
  exact ⟨rfl, hmenus, hshort,
    c2_insufficient_stock_all_or_nothing c2w_s 1 c2w_req rfl hmenus hshort⟩

/-! ## Transfer ship failure (C8) -/

/-- A transfer item that fails the availability check against the given
stock table: missing row or less on hand than the item quantity. -/
def shortTransferItem (stocks : List StockLevel) (fromOutlet : Nat)
    (item : StockTransferItem) : Prop :=
  match findStock stocks fromOutlet item.ingredient_id with
  | none => True
  | some row => row.qty_on_hand < item.qty

theorem setQtyFirst_isSome {st : List StockLevel} {o i o2 i2 : Nat} {q : ℚ} :
    (findStock (setQtyFirst st o i q) o2 i2).isSome =
      (findStock st o2 i2).isSome := by
  by_cases hk : o2 = o ∧ i2 = i
  · obtain ⟨rfl, rfl⟩ := hk
    cases hfind : findStock st o2 i2 with
    | some row => rw [findStock_setQtyFirst_self hfind]; rfl
    | none => rw [setQtyFirst_of_none hfind, hfind]
  · rw [findStock_setQtyFirst_other hk]

theorem shipItems_err_of_short {org fromOutlet tid : Nat} :
    ∀ (items : List StockTransferItem) (s : St) (s0stocks : List StockLevel),
    (∀ o i, stockQty s.inventory_stock o i ≤ stockQty s0stocks o i) →
    (∀ o i, (findStock s.inventory_stock o i).isSome =
      (findStock s0stocks o i).isSome) →
    (∀ item ∈ items, 0 ≤ item.qty) →
    (∃ item ∈ items, shortTransferItem s0stocks fromOutlet item) →
    ∃ i, shipItems org fromOutlet tid items s = .error (.insufficientStock i) := by
  intro items
  induction items with
  | nil =>
    intro s s0stocks _ _ _ hsh
    simp at hsh
  | cons item rest ih =>
    intro s s0stocks hle hsome hpos hsh
    unfold shipItems
    cases hfind : findStock s.inventory_stock fromOutlet item.ingredient_id with
    | none => exact ⟨item.ingredient_id, rfl⟩
    | some stock =>
      simp only []
      by_cases hlt : stock.qty_on_hand < item.qty
      · exact ⟨item.ingredient_id, by rw [if_pos hlt]⟩
      · have hheadok : ¬ shortTransferItem s0stocks fromOutlet item := by
          unfold shortTransferItem
          have hcur : stockQty s.inventory_stock fromOutlet item.ingredient_id =
              stock.qty_on_hand := stockQty_some hfind
          have hs0 : (findStock s0stocks fromOutlet item.ingredient_id).isSome := by
            rw [← hsome]
            rw [hfind]
            rfl
          obtain ⟨row0, hrow0⟩ := Option.isSome_iff_exists.mp hs0
          rw [hrow0]
          have hq0 : stockQty s0stocks fromOutlet item.ingredient_id =
              row0.qty_on_hand := stockQty_some hrow0
          have hle2 := hle fromOutlet item.ingredient_id
          rw [hcur, hq0] at hle2
          intro hcon
          exact hlt (lt_of_le_of_lt hle2 hcon)
        obtain ⟨item2, hitem2, hsp⟩ := hsh
        have hitem2rest : item2 ∈ rest := by
          rcases List.mem_cons.mp hitem2 with h1 | h1
          · subst h1; exact absurd hsp hheadok
          · exact h1
        rw [if_neg hlt]
        refine ih _ s0stocks ?_ ?_
          (fun it hit => hpos it (List.mem_cons_of_mem _ hit))
          ⟨item2, hitem2rest, hsp⟩
        · intro o2 i2
          by_cases hk : o2 = fromOutlet ∧ i2 = item.ingredient_id
          · rcases hk with ⟨h1, h2⟩
            rw [h1, h2]
            have hnewq := stockQty_some
              (findStock_setQtyFirst_self hfind (stock.qty_on_hand - item.qty))
            rw [hnewq]
            have hle2 := hle fromOutlet item.ingredient_id
            rw [stockQty_some hfind] at hle2
            have hq := hpos item (List.mem_cons_self item rest)
            show stock.qty_on_hand - item.qty ≤
              stockQty s0stocks fromOutlet item.ingredient_id
            linarith
          · rw [stockQty, findStock_setQtyFirst_other hk, ← stockQty]
            exact hle o2 i2
        · intro o2 i2
          rw [setQtyFirst_isSome]
          exact hsome o2 i2

/-- C8: shipping a DRAFT transfer containing an item whose quantity
exceeds the source outlet's quantity on hand fails with
`InsufficientStock`, the persisted state is the unchanged pre-state (the
transfer stays DRAFT, no ledger entries and no stock changes survive,
even when earlier items had sufficient stock and were provisionally
deducted), and ship is permitted only from status DRAFT. -/
theorem c8_ship_insufficient_stock (s : St) (org tid : Nat) (tr : StockTransfer)
    (htr : findTransfer s org tid = some tr) (hdraft : tr.status = .draft)
    (hpos : ∀ item ∈ transferItemsOf s.stock_transfer_items tid, 0 ≤ item.qty)
    (hshort : ∃ item ∈ transferItemsOf s.stock_transfer_items tid,
      shortTransferItem s.inventory_stock tr.from_outlet_id item) :
    ∃ i, shipStockTransfer org tid s = .error (.insufficientStock i) ∧
      persisted (shipStockTransfer org tid s) s = s ∧
      (∀ s3 tr3, findTransfer s3 org tid = some tr3 → tr3.status ≠ .draft →
        shipStockTransfer org tid s3 = .error .invalidStatus) := by
  obtain ⟨i, herr⟩ := shipItems_err_of_short
    (transferItemsOf s.stock_transfer_items tid) s s.inventory_stock
    (fun o i => le_refl _) (fun o i => rfl) hpos hshort
  refine ⟨i, ?_, ?_, ?_⟩
  · unfold shipStockTransfer
    rw [htr]
    simp only []
    rw [if_pos hdraft, herr]
  · unfold shipStockTransfer
    rw [htr]
    simp only []
    rw [if_pos hdraft, herr]
    rfl
  · intro s3 tr3 h3 hne
    unfold shipStockTransfer
    rw [h3]
    simp only []
    rw [if_neg hne]

def c8w_s : St :=
  { st0 with
    outlets := [⟨1, 1⟩, ⟨2, 1⟩],
    inventory_stock := [⟨1, 7, 1, 3, 0, 1, some 2⟩],
    stock_transfers := [⟨60, 1, .draft, 1, 2, none⟩],
    stock_transfer_items := [⟨60, 7, 5, 1, some 2, some 10⟩] }

theorem c8_ship_insufficient_stock_witness :
    findTransfer c8w_s 1 60 = some ⟨60, 1, .draft, 1, 2, none⟩ ∧
      (∀ item ∈ transferItemsOf c8w_s.stock_transfer_items 60, 0 ≤ item.qty) ∧
      (∃ item ∈ transferItemsOf c8w_s.stock_transfer_items 60,
        shortTransferItem c8w_s.inventory_stock 1 item) ∧
      (∃ i, shipStockTransfer 1 60 c8w_s = .error (.insufficientStock i) ∧
        persisted (shipStockTransfer 1 60 c8w_s) c8w_s = c8w_s ∧
        (∀ s3 tr3, findTransfer s3 1 60 = some tr3 → tr3.status ≠ .draft →
          shipStockTransfer 1 60 s3 = .error .invalidStatus)) := by
  have hshort : ∃ item ∈ transferItemsOf c8w_s.stock_transfer_items 60,
      shortTransferItem c8w_s.inventory_stock 1 item := by
    refine ⟨⟨60, 7, 5, 1, some 2, some 10⟩, by decide, ?_⟩
    show (3 : ℚ) < 5
    norm_num
  exact ⟨rfl, by decide, hshort,
    c8_ship_insufficient_stock c8w_s 1 60 ⟨60, 1, .draft, 1, 2, none⟩ rfl rfl
      (by decide) hshort⟩

/-! ## C6: stock-request approval clamps the approved quantity -/

theorem updateFirst_map_key {α β : Type} {p : α → Bool} {f : α → α} {g : α → β}
    (h : ∀ x, p x = true → g (f x) = g x) :
    ∀ l : List α, (updateFirst p f l).map g = l.map g := by
  intro l
  induction l with
  | nil => rfl
  | cons x xs ih =>
    by_cases hp : p x
    · simp only [updateFirst, if_pos hp, List.map_cons, h x hp]
    · simp only [updateFirst, if_neg hp, List.map_cons, ih]

theorem setApproved_map_ids (iid : Nat) (q : ℚ) (items : List StockRequestItem) :
    (setApproved iid q items).map (fun it => it.item_id) =
      items.map (fun it => it.item_id) := by
  unfold setApproved
  exact @updateFirst_map_key StockRequestItem Nat
    (fun it => it.item_id == iid)
    (fun it => { it with approved_qty := some q })
    (fun it => it.item_id) (fun x _ => rfl) items

theorem find?_setApproved_self {items : List StockRequestItem} {iid : Nat}
    {item : StockRequestItem} (q : ℚ)
    (h : items.find? (fun it => it.item_id == iid) = some item) :
    (setApproved iid q items).find? (fun it => it.item_id == iid) =
      some { item with approved_qty := some q } := by
  unfold setApproved
  refine find?_updateFirst_self h ?_
  have hp := List.find?_some h
  simpa using hp

theorem find?_setApproved_one_other {items : List StockRequestItem}
    {iid iid2 : Nat} {q : ℚ} (hne : iid2 ≠ iid) :
    (setApproved iid q items).find? (fun it => it.item_id == iid2) =
      items.find? (fun it => it.item_id == iid2) := by
  refine find?_updateFirst_of_disjoint (fun x hx => ?_)
  have hxid : x.item_id = iid := by simpa using hx
  have hner : (x.item_id == iid2) = false := by
    simp only [beq_eq_false_iff_ne, ne_eq, hxid]
    exact fun he => hne he.symm
  exact ⟨hner, hner⟩

theorem find?_setApproved_two_other {items : List StockRequestItem}
    {iid iid2 rid : Nat} {q : ℚ} (hne : iid2 ≠ iid) :
    (setApproved iid q items).find?
        (fun it => it.item_id == iid2 && it.request_id == rid) =
      items.find? (fun it => it.item_id == iid2 && it.request_id == rid) := by
  refine find?_updateFirst_of_disjoint (fun x hx => ?_)
  have hxid : x.item_id = iid := by simpa using hx
  have hner : ((x.item_id == iid2) && (x.request_id == rid)) = false := by
    have : (x.item_id == iid2) = false := by
      simp only [beq_eq_false_iff_ne, ne_eq, hxid]
      exact fun he => hne he.symm
    simp [this]
  exact ⟨hner, hner⟩

theorem approveItems_stock_const (toOutlet rid : Nat) :
    ∀ (lines : List ApproveLine) (s : St),
      (approveItems toOutlet rid lines s).inventory_stock =
        s.inventory_stock := by
  intro lines
  induction lines with
  | nil => intro s; rfl
  | cons ld rest ih =>
    intro s
    simp only [approveItems]
    split
    · exact ih s
    · exact ih _

theorem approveItems_find_other (toOutlet rid : Nat) :
    ∀ (lines : List ApproveLine) (s : St) (iid : Nat),
      (∀ ld ∈ lines, ld.item_id ≠ iid) →
      (approveItems toOutlet rid lines s).stock_request_items.find?
          (fun it => it.item_id == iid) =
        s.stock_request_items.find? (fun it => it.item_id == iid) := by
  intro lines
  induction lines with
  | nil => intro s iid _; rfl
  | cons ld rest ih =>
    intro s iid hne
    simp only [approveItems]
    split
    · exact ih s iid (fun l hl => hne l (List.mem_cons_of_mem _ hl))
    · rw [ih _ iid (fun l hl => hne l (List.mem_cons_of_mem _ hl))]
      exact find?_setApproved_one_other
        (fun he => hne ld (List.mem_cons_self ld rest) he.symm)

theorem approveItems_spec (toOutlet rid : Nat) :
    ∀ (lines : List ApproveLine) (s : St),
      (s.stock_request_items.map (fun it => it.item_id)).Nodup →
      (lines.map (fun l => l.item_id)).Nodup →
      ∀ ld ∈ lines, ∀ item : StockRequestItem,
        s.stock_request_items.find?
            (fun it => it.item_id == ld.item_id && it.request_id == rid) =
          some item →
        (approveItems toOutlet rid lines s).stock_request_items.find?
            (fun it => it.item_id == ld.item_id) =
          some { item with approved_qty := some (min ld.approved_qty
            (min item.requested_qty
              (stockQty s.inventory_stock toOutlet item.ingredient_id))) } := by
  intro lines
  induction lines with
  | nil => intro s _ _ ld hld; exact absurd hld (List.not_mem_nil ld)
  | cons ld0 rest ih =>
    intro s hsnd hlnd ld hld item hfind
    rw [List.map_cons, List.nodup_cons] at hlnd
    obtain ⟨hl1, hl2⟩ := hlnd
    rcases List.mem_cons.mp hld with rfl | hldr
    · simp only [approveItems]
      rw [hfind]
      simp only []
      rw [approveItems_find_other toOutlet rid rest _ ld.item_id
        (fun l hl he => hl1 (he ▸ List.mem_map_of_mem (fun x => x.item_id) hl))]
      have hone : s.stock_request_items.find?
          (fun it => it.item_id == ld.item_id) = some item := by
        have hpitem := List.find?_some hfind
        rw [Bool.and_eq_true, beq_iff_eq, beq_iff_eq] at hpitem
        refine find?_eq_of_nodup_key hsnd (List.mem_of_find?_eq_some hfind)
          ?_ ?_
        · exact beq_iff_eq.mpr hpitem.1
        · intro y _ hpy
          rw [beq_iff_eq] at hpy
          rw [hpy, hpitem.1]
      exact find?_setApproved_self _ hone
    · have hne0 : ld.item_id ≠ ld0.item_id := by
        intro he
        exact hl1 (he ▸ List.mem_map_of_mem (fun x => x.item_id) hldr)
      simp only [approveItems]
      cases hfound0 : s.stock_request_items.find?
          (fun it => it.item_id == ld0.item_id && it.request_id == rid) with
      | none => exact ih s hsnd hl2 ld hldr item hfind
      | some item0 =>
        simp only []
        generalize (min ld0.approved_qty (min item0.requested_qty
          (stockQty s.inventory_stock toOutlet item0.ingredient_id))) = q0
        have hmap := setApproved_map_ids ld0.item_id q0 s.stock_request_items
        have hnd1 : ((setApproved ld0.item_id q0
            s.stock_request_items).map (fun it => it.item_id)).Nodup := by
          rw [hmap]; exact hsnd
        have hfind1 : (setApproved ld0.item_id q0 s.stock_request_items).find?
            (fun it => it.item_id == ld.item_id && it.request_id == rid) =
            some item := by
          rw [find?_setApproved_two_other hne0]
          exact hfind
        have hres := ih
          { s with stock_request_items := setApproved ld0.item_id q0 s.stock_request_items }
          hnd1 hl2 ld hldr item hfind1
        exact hres

/-- C6: approving a PENDING stock request stores, for every payload line
matching an item of the request, `approved_qty = min(caller value,
min(requested_qty, central availability))`, where the central outlet's
availability defaults to `0` when it has no stock row; consequently the
stored value never exceeds `requested_qty` nor the central availability.
Item ids are the primary key of `stock_request_items`, hence assumed
distinct, and the payload lines are keyed by distinct item ids. -/
theorem c6_approved_qty_clamped (s s2 : St) (org rid : Nat)
    (req : List ApproveLine) (r : StockRequest)
    (hr : findRequest s org rid = some r)
    (hids : (s.stock_request_items.map (fun it => it.item_id)).Nodup)
    (hreq : (req.map (fun l => l.item_id)).Nodup)
    (hrun : approveStockRequest org rid req s = .ok s2) :
    ∀ ld ∈ req, ∀ item : StockRequestItem,
      s.stock_request_items.find?
          (fun it => it.item_id == ld.item_id && it.request_id == rid) =
        some item →
      ∃ sq : ℚ,
        s2.stock_request_items.find? (fun it => it.item_id == ld.item_id) =
          some { item with approved_qty := some sq } ∧
        sq = min ld.approved_qty (min item.requested_qty
          (stockQty s.inventory_stock r.to_outlet_id item.ingredient_id)) ∧
        sq ≤ item.requested_qty ∧
        sq ≤ stockQty s.inventory_stock r.to_outlet_id item.ingredient_id := by
  intro ld hld item hfind
  unfold approveStockRequest at hrun
  rw [hr] at hrun
  simp only [] at hrun
  by_cases hst : r.status = .pending
  · rw [if_pos hst] at hrun
    injection hrun with h2
    subst h2
    refine ⟨min ld.approved_qty (min item.requested_qty
        (stockQty s.inventory_stock r.to_outlet_id item.ingredient_id)),
      ?_, rfl, ?_, ?_⟩
    · exact approveItems_spec r.to_outlet_id rid req s hids hreq ld hld
        item hfind
    · exact le_trans (min_le_right _ _) (min_le_left _ _)
    · exact le_trans (min_le_right _ _) (min_le_right _ _)
  · rw [if_neg hst] at hrun
    exact Except.noConfusion hrun

def c6w_s : St :=
  { st0 with
    outlets := [⟨9, 1⟩],
    stock_requests := [⟨80, 1, .pending, 9⟩],
    stock_request_items := [⟨81, 80, 7, 10, none⟩],
    inventory_stock := [⟨9, 7, 1, 4, 0, 1, none⟩] }

def c6w_s2 : St :=
  { st0 with
    outlets := [⟨9, 1⟩],
    stock_requests := [⟨80, 1, .approved, 9⟩],
    stock_request_items := [⟨81, 80, 7, 10, some 4⟩],
    inventory_stock := [⟨9, 7, 1, 4, 0, 1, none⟩] }

theorem c6_approved_qty_clamped_witness :
    findRequest c6w_s 1 80 = some ⟨80, 1, .pending, 9⟩ ∧
      (c6w_s.stock_request_items.map (fun it => it.item_id)).Nodup ∧
      (([(⟨81, 7⟩ : ApproveLine)].map (fun l => l.item_id)).Nodup) ∧
      approveStockRequest 1 80 [⟨81, 7⟩] c6w_s = .ok c6w_s2 ∧
      (∀ ld ∈ [(⟨81, 7⟩ : ApproveLine)], ∀ item : StockRequestItem,
        c6w_s.stock_request_items.find?
            (fun it => it.item_id == ld.item_id && it.request_id == 80) =
          some item →
        ∃ sq : ℚ,
          c6w_s2.stock_request_items.find?
              (fun it => it.item_id == ld.item_id) =
            some { item with approved_qty := some sq } ∧
          sq = min ld.approved_qty (min item.requested_qty
            (stockQty c6w_s.inventory_stock 9 item.ingredient_id)) ∧
          sq ≤ item.requested_qty ∧
          sq ≤ stockQty c6w_s.inventory_stock 9 item.ingredient_id) := by
  have hrun : approveStockRequest 1 80 [⟨81, 7⟩] c6w_s = .ok c6w_s2 := by
    with_unfolding_all rfl
  exact ⟨rfl, by decide, by decide, hrun,
    c6_approved_qty_clamped c6w_s c6w_s2 1 80 [⟨81, 7⟩] ⟨80, 1, .pending, 9⟩
      rfl (by decide) (by decide) hrun⟩

/-! ## C7: effects of receiving a purchase order -/

/-- C7: receiving an ORDERED purchase order with one payload line that
matches a PO item adds `qty_received` to the outlet's quantity on hand,
overwrites `last_cost` with the item's `unit_cost`, appends exactly one
PURCHASE ledger entry (`change_qty = +qty_received`, `unit_cost` the
item's cost, `source_id` the PO id), and sets the PO status to RECEIVED;
moreover, on any state, receive succeeds exactly when the PO's status is
ORDERED or DRAFT. PO ids are the table's primary key, hence assumed
distinct. -/
theorem c7_receive_po (s : St) (org poid : Nat) (po : PurchaseOrder)
    (ld : ReceivePOLine) (item : PurchaseOrderItem)
    (hpo : findPO s org poid = some po)
    (hpk : (s.purchase_orders.map (fun p => p.po_id)).Nodup)
    (hst : po.status = .ordered)
    (hitem : s.purchase_order_items.find?
        (fun it => it.item_id == ld.item_id && it.po_id == poid) =
      some item) :
    ∃ s2, receivePurchaseOrder org poid [ld] s = .ok s2 ∧
      stockQty s2.inventory_stock po.outlet_id item.ingredient_id =
        stockQty s.inventory_stock po.outlet_id item.ingredient_id +
          ld.qty_received ∧
      lastCostAt s2.inventory_stock po.outlet_id item.ingredient_id =
        some item.unit_cost ∧
      s2.inventory_ledger = s.inventory_ledger ++
        [{ organization_id := org, outlet_id := po.outlet_id,
           ingredient_id := item.ingredient_id,
           change_qty := ld.qty_received, source_type := .purchase,
           source_id := some poid, unit_id := item.unit_id,
           unit_cost := some item.unit_cost,
           total_cost := some (ld.qty_received * item.unit_cost) }] ∧
      s2.purchase_orders.find? (fun p => p.po_id == poid) =
        some { po with status := .received } ∧
      (∀ s3 po3, findPO s3 org poid = some po3 →
        ((∃ s4, receivePurchaseOrder org poid [ld] s3 = .ok s4) ↔
          (po3.status = .ordered ∨ po3.status = .draft))) := by
  unfold receivePurchaseOrder
  rw [hpo]
  simp only []
  rw [if_pos (Or.inl hst)]
  have hpos : (receivePOItems org poid po.outlet_id [ld] s).purchase_orders =
      s.purchase_orders := by
    simp only [receivePOItems]
    rw [hitem]
  have hledger : (receivePOItems org poid po.outlet_id [ld] s).inventory_ledger =
      s.inventory_ledger ++
        [{ organization_id := org, outlet_id := po.outlet_id,
           ingredient_id := item.ingredient_id,
           change_qty := ld.qty_received, source_type := .purchase,
           source_id := some poid, unit_id := item.unit_id,
           unit_cost := some item.unit_cost,
           total_cost := some (ld.qty_received * item.unit_cost) }] := by
    simp only [receivePOItems]
    rw [hitem]
  refine ⟨_, rfl, ?_, ?_, ?_, ?_, ?_⟩
  · show stockQty (receivePOItems org poid po.outlet_id [ld] s).inventory_stock
        po.outlet_id item.ingredient_id =
      stockQty s.inventory_stock po.outlet_id item.ingredient_id +
        ld.qty_received
    cases hfs : findStock s.inventory_stock po.outlet_id item.ingredient_id with
    | some stock =>
      have hstocks : (receivePOItems org poid po.outlet_id [ld] s).inventory_stock =
          setQtyCostFirst s.inventory_stock po.outlet_id item.ingredient_id
            (stock.qty_on_hand + ld.qty_received) (some item.unit_cost) := by
        simp only [receivePOItems]
        rw [hitem]
        simp only []
        rw [hfs]
      rw [hstocks, stockQty_some (findStock_setQtyCostFirst_self hfs _ _),
        stockQty_some hfs]
    | none =>
      have hstocks : (receivePOItems org poid po.outlet_id [ld] s).inventory_stock =
          s.inventory_stock ++
            [{ outlet_id := po.outlet_id, ingredient_id := item.ingredient_id,
               organization_id := org, qty_on_hand := ld.qty_received,
               min_qty := 0, unit_id := item.unit_id,
               last_cost := some item.unit_cost }] := by
        simp only [receivePOItems]
        rw [hitem]
        simp only []
        rw [hfs]
      have hnew : findStock (receivePOItems org poid po.outlet_id [ld] s).inventory_stock
          po.outlet_id item.ingredient_id =
          some { outlet_id := po.outlet_id, ingredient_id := item.ingredient_id,
                 organization_id := org, qty_on_hand := ld.qty_received,
                 min_qty := 0, unit_id := item.unit_id,
                 last_cost := some item.unit_cost } := by
        rw [hstocks, findStock_append_of_none hfs]
        rw [findStock, List.find?_cons_of_pos]
        simp [keyMatch]
      rw [stockQty_some hnew, stockQty_none hfs]
      show ld.qty_received = 0 + ld.qty_received
      rw [zero_add]
  · show lastCostAt (receivePOItems org poid po.outlet_id [ld] s).inventory_stock
        po.outlet_id item.ingredient_id = some item.unit_cost
    cases hfs : findStock s.inventory_stock po.outlet_id item.ingredient_id with
    | some stock =>
      have hstocks : (receivePOItems org poid po.outlet_id [ld] s).inventory_stock =
          setQtyCostFirst s.inventory_stock po.outlet_id item.ingredient_id
            (stock.qty_on_hand + ld.qty_received) (some item.unit_cost) := by
        simp only [receivePOItems]
        rw [hitem]
        simp only []
        rw [hfs]
      rw [lastCostAt, hstocks, findStock_setQtyCostFirst_self hfs]
    | none =>
      have hstocks : (receivePOItems org poid po.outlet_id [ld] s).inventory_stock =
          s.inventory_stock ++
            [{ outlet_id := po.outlet_id, ingredient_id := item.ingredient_id,
               organization_id := org, qty_on_hand := ld.qty_received,
               min_qty := 0, unit_id := item.unit_id,
               last_cost := some item.unit_cost }] := by
        simp only [receivePOItems]
        rw [hitem]
        simp only []
        rw [hfs]
      rw [lastCostAt, hstocks, findStock_append_of_none hfs]
      rw [findStock, List.find?_cons_of_pos]
      simp [keyMatch]
  · show ({ receivePOItems org poid po.outlet_id [ld] s with
        purchase_orders := setPOStatus
          (receivePOItems org poid po.outlet_id [ld] s).purchase_orders poid
          .received } : St).inventory_ledger =
      s.inventory_ledger ++ _
    exact hledger
  · have hone : s.purchase_orders.find? (fun p => p.po_id == poid) = some po := by
      have hp := List.find?_some hpo
      rw [Bool.and_eq_true, beq_iff_eq, beq_iff_eq] at hp
      refine find?_eq_of_nodup_key hpk (List.mem_of_find?_eq_some hpo) ?_ ?_
      · exact beq_iff_eq.mpr hp.1
      · intro y _ hpy
        rw [beq_iff_eq] at hpy
        rw [hpy, hp.1]
    show (setPOStatus (receivePOItems org poid po.outlet_id [ld] s).purchase_orders
        poid .received).find? (fun p => p.po_id == poid) =
      some { po with status := .received }
    rw [hpos]
    unfold setPOStatus
    refine find?_updateFirst_self hone ?_
    have hp := List.find?_some hone
    simpa using hp
  · intro s3 po3 h3
    rw [h3]
    simp only []
    by_cases h : po3.status = .ordered ∨ po3.status = .draft
    · rw [if_pos h]
      exact ⟨fun _ => h, fun _ => ⟨_, rfl⟩⟩
    · rw [if_neg h]
      exact ⟨fun hc => absurd (Except.noConfusion hc.choose_spec) (fun f => f),
        fun hh => absurd hh h⟩

def c7w_s : St :=
  { st0 with
    outlets := [⟨1, 1⟩],
    purchase_orders := [⟨90, 1, 1, .ordered⟩],
    purchase_order_items := [⟨91, 90, 7, 10, 1, 3, none⟩],
    inventory_stock := [⟨1, 7, 1, 2, 0, 1, some 1⟩] }

theorem c7_receive_po_witness :
    findPO c7w_s 1 90 = some ⟨90, 1, 1, .ordered⟩ ∧
      (c7w_s.purchase_orders.map (fun p => p.po_id)).Nodup ∧
      (⟨90, 1, 1, .ordered⟩ : PurchaseOrder).status = .ordered ∧
      c7w_s.purchase_order_items.find?
          (fun it => it.item_id == (91 : Nat) && it.po_id == (90 : Nat)) =
        some ⟨91, 90, 7, 10, 1, 3, none⟩ ∧
      (∃ s2, receivePurchaseOrder 1 90 [⟨91, 10⟩] c7w_s = .ok s2 ∧
        stockQty s2.inventory_stock 1 7 =
          stockQty c7w_s.inventory_stock 1 7 + 10 ∧
        lastCostAt s2.inventory_stock 1 7 = some 3 ∧
        s2.inventory_ledger = c7w_s.inventory_ledger ++
          [{ organization_id := 1, outlet_id := 1, ingredient_id := 7,
             change_qty := 10, source_type := .purchase,
             source_id := some 90, unit_id := 1, unit_cost := some 3,
             total_cost := some ((10 : ℚ) * 3) }] ∧
        s2.purchase_orders.find? (fun p => p.po_id == (90 : Nat)) =
          some ⟨90, 1, 1, .received⟩ ∧
        (∀ s3 po3, findPO s3 1 90 = some po3 →
          ((∃ s4, receivePurchaseOrder 1 90 [⟨91, 10⟩] s3 = .ok s4) ↔
            (po3.status = .ordered ∨ po3.status = .draft)))) := by
  exact ⟨rfl, by decide, rfl, rfl,
    c7_receive_po c7w_s 1 90 ⟨90, 1, 1, .ordered⟩ ⟨91, 10⟩
      ⟨91, 90, 7, 10, 1, 3, none⟩ rfl (by decide) rfl rfl⟩

/-! ## C9: the reverse-conversion fallback of `convert_unit` is dead code -/

/-- C9: with a single conversion row `2 → 1` (multiplier 4) and a request
to convert 8 units from 1 to 2, the spec's contract produces
`8 * (1/4) = 2` via the inverse pair, but the handler returns
`ConversionNotFound`: its "reverse" query swaps the two unit ids both in
the SQL text and in the bound parameters, so it matches the direct pair
again — which the first query already failed to find — and the inverse
lookup promised by the spec can never fire. -/
theorem c9_reverse_conversion_counterexample :
    convertUnit [⟨none, 2, 1, 4⟩] 1 2 8 none = .error .conversionNotFound ∧
      convertUnitSpec [⟨none, 2, 1, 4⟩] 1 2 8 none = .ok 2 := by
  constructor
  · with_unfolding_all rfl
  · with_unfolding_all rfl

/-! ## C10: payload lines not belonging to the document are skipped -/

theorem find?_updateFirst_none {α : Type} {p q : α → Bool} {f : α → α}
    {l : List α} (hq : ∀ x, q (f x) = q x) (h : l.find? q = none) :
    (updateFirst p f l).find? q = none := by
  rw [List.find?_eq_none] at h ⊢
  intro y hy
  rcases mem_updateFirst hy with hmem | ⟨x, hx, _, rfl⟩
  · exact h y hmem
  · rw [hq x]
    exact h x hx

theorem receivePOItems_skip (org poid outlet : Nat) (bad : ReceivePOLine) :
    ∀ (pre post : List ReceivePOLine) (s : St),
      s.purchase_order_items.find?
          (fun it => it.item_id == bad.item_id && it.po_id == poid) = none →
      receivePOItems org poid outlet (pre ++ bad :: post) s =
        receivePOItems org poid outlet (pre ++ post) s := by
  intro pre
  induction pre with
  | nil =>
    intro post s h
    show receivePOItems org poid outlet (bad :: post) s = _
    simp only [receivePOItems]
    rw [h]
    rfl
  | cons ld rest ih =>
    intro post s h
    simp only [List.cons_append, receivePOItems]
    cases hfind : s.purchase_order_items.find?
        (fun it => it.item_id == ld.item_id && it.po_id == poid) with
    | none => exact ih post s h
    | some item =>
      simp only []
      exact ih post _ (find?_updateFirst_none (fun x => rfl) h)

theorem approveItems_skip (toOutlet rid : Nat) (bad : ApproveLine) :
    ∀ (pre post : List ApproveLine) (s : St),
      s.stock_request_items.find?
          (fun it => it.item_id == bad.item_id && it.request_id == rid) =
        none →
      approveItems toOutlet rid (pre ++ bad :: post) s =
        approveItems toOutlet rid (pre ++ post) s := by
  intro pre
  induction pre with
  | nil =>
    intro post s h
    show approveItems toOutlet rid (bad :: post) s = _
    simp only [approveItems]
    rw [h]
    rfl
  | cons ld rest ih =>
    intro post s h
    simp only [List.cons_append, approveItems]
    cases hfind : s.stock_request_items.find?
        (fun it => it.item_id == ld.item_id && it.request_id == rid) with
    | none => exact ih post s h
    | some item =>
      simp only []
      exact ih post _ (find?_updateFirst_none (fun x => rfl) h)

/-- C10: a payload line whose `item_id` matches no row of the referenced
document is silently skipped by both `receive_purchase_order` and
`approve_stock_request` (`if not item: continue`): the whole call behaves
exactly as if the line were absent — no error for the stray line, every
other line processed as usual, and the document's status transition
unchanged. -/
theorem c10_unmatched_lines_skipped :
    (∀ (s : St) (org poid : Nat) (pre post : List ReceivePOLine)
        (bad : ReceivePOLine),
      s.purchase_order_items.find?
          (fun it => it.item_id == bad.item_id && it.po_id == poid) = none →
      receivePurchaseOrder org poid (pre ++ bad :: post) s =
        receivePurchaseOrder org poid (pre ++ post) s) ∧
    (∀ (s : St) (org rid : Nat) (pre post : List ApproveLine)
        (bad : ApproveLine),
      s.stock_request_items.find?
          (fun it => it.item_id == bad.item_id && it.request_id == rid) =
        none →
      approveStockRequest org rid (pre ++ bad :: post) s =
        approveStockRequest org rid (pre ++ post) s) := by
  constructor
  · intro s org poid pre post bad h
    unfold receivePurchaseOrder
    cases hpo : findPO s org poid with
    | none => rfl
    | some po =>
      simp only []
      by_cases hs : po.status = .ordered ∨ po.status = .draft
      · rw [if_pos hs, if_pos hs,
          receivePOItems_skip org poid po.outlet_id bad pre post s h]
      · rw [if_neg hs, if_neg hs]
  · intro s org rid pre post bad h
    unfold approveStockRequest
    cases hr : findRequest s org rid with
    | none => rfl
    | some r =>
      simp only []
      by_cases hs : r.status = .pending
      · rw [if_pos hs, if_pos hs,
          approveItems_skip r.to_outlet_id rid bad pre post s h]
      · rw [if_neg hs, if_neg hs]

theorem c10_unmatched_lines_skipped_witness :
    (st0.purchase_order_items.find?
        (fun it => it.item_id == (999 : Nat) && it.po_id == (90 : Nat)) =
          none ∧
      receivePurchaseOrder 1 90 ([] ++ ⟨999, 5⟩ :: []) st0 =
        receivePurchaseOrder 1 90 ([] ++ []) st0) ∧
    (st0.stock_request_items.find?
        (fun it => it.item_id == (999 : Nat) && it.request_id == (80 : Nat)) =
          none ∧
      approveStockRequest 1 80 ([] ++ ⟨999, 5⟩ :: []) st0 =
        approveStockRequest 1 80 ([] ++ []) st0) :=
  ⟨⟨rfl, c10_unmatched_lines_skipped.1 st0 1 90 [] [] ⟨999, 5⟩ rfl⟩,
    ⟨rfl, c10_unmatched_lines_skipped.2 st0 1 80 [] [] ⟨999, 5⟩ rfl⟩⟩

end MenuEng
